import Mathlib

/-!
# ROUGE scoring (`rouge_score.go`, `rouge.go`): shallow embedding and verified properties

Modelling conventions.

* A Go `string` is a Lean `String`; a Go `[]string` is a `List String`.
* A Go `map[string]int` is an association list with pairwise distinct keys
  (`AList`).  Go leaves the iteration order of a map unspecified; the embedding
  iterates in the order of the association list.  Every property proved below
  speaks about key membership and the number of keys only, which do not depend
  on that order.
* A Go `map[string]float64` (the stat mapping returned by the scoring
  functions) is its lookup function `String → Option ℚ`, so that two mappings
  are equal exactly when they hold the same keys with the same values.
* `float64` is modelled by exact rational arithmetic (`ℚ`); rounding is not
  modelled.  The constant `1e-8` is the rational `1 / 10 ^ 8`.
* `len`, table cells and loop indices are natural numbers (they are never
  negative in the source); a subtraction that the source performs on `int` is
  performed on `Int`.
* In `rouge_score.go`, whose functions return no `error`, `panic(msg)` is
  `Except.error msg`.  In `rouge.go` a returned `error` and a run-time panic are
  kept apart by the three-way type `Result`.
* A slice argument that may be `nil` is an `Option (List String)`.
-/

namespace Rouge

open scoped List

/-! ## N-gram multiset -/

/-- A Go `map[string]int`. -/
abbrev GoMap := AList (fun _ : String => Int)

/-- The struct `Ngrams`. -/
structure Ngrams where
  ngrams : GoMap
  exclusive : Bool

/-- Source `NewNgrams`: an empty map with the given mode. -/
def NewNgrams (exclusive : Bool) : Ngrams :=
  { ngrams := ∅, exclusive := exclusive }

/-- Source `Ngrams.Add`: `n.ngrams[o] = 1` in exclusive mode, `n.ngrams[o]++` otherwise
(a missing key reads as `0`). -/
def Ngrams.Add (n : Ngrams) (o : String) : Ngrams :=
  if n.exclusive then
    { n with ngrams := n.ngrams.insert o 1 }
  else
    { n with ngrams := n.ngrams.insert o ((n.ngrams.lookup o).getD 0 + 1) }

/-- Source `Ngrams.Len`: `len(n.ngrams)`, the number of keys. -/
def Ngrams.Len (n : Ngrams) : Nat :=
  n.ngrams.keys.length

/-- Source `Ngrams.Intersection`: a fresh multiset in the mode of the receiver, to which
every key of `n` that is also a key of `o` is added. -/
def Ngrams.Intersection (n o : Ngrams) : Ngrams :=
  n.ngrams.keys.foldl
    (fun intersection k =>
      if (o.ngrams.lookup k).isSome then intersection.Add k else intersection)
    (NewNgrams n.exclusive)

/-- Source `Ngrams.BatchAdd`: `Add` for each element, in order. -/
def Ngrams.BatchAdd (n : Ngrams) (o : List String) : Ngrams :=
  o.foldl (fun acc v => acc.Add v) n

/-- Source `Ngrams.Union`: a fresh multiset in the mode of the receiver, to which every
key of `n` and then every key of each of `others` is added. -/
def Ngrams.Union (n : Ngrams) (others : List Ngrams) : Ngrams :=
  let union := n.ngrams.keys.foldl (fun union k => union.Add k) (NewNgrams n.exclusive)
  others.foldl
    (fun union other => other.ngrams.keys.foldl (fun union k => union.Add k) union)
    union

/-! ## Tokenisation and n-gram extraction -/

/-- Go `strings.Join(elems, sep)`. -/
def Join (elems : List String) (sep : String) : String :=
  sep.intercalate elems

/-- The scan behind `strings.Split(s, " ")`: `cur` holds the characters of the
piece being read, most recent first. -/
def splitAux : List Char → List Char → List String
  | [], cur => [String.mk cur.reverse]
  | c :: cs, cur =>
    if c = ' ' then String.mk cur.reverse :: splitAux cs []
    else splitAux cs (c :: cur)

/-- Go `strings.Split(s, " ")`: the pieces of `s` between single spaces; one more
piece than there are spaces, so never an empty list. -/
def Split (s : String) : List String :=
  splitAux s.data []

/-- Source `getNgrams`: the loop `for i := 0; i <= len(text)-n; i++` adds the key
`strings.Join(text[i:i+n], " ")`. -/
def getNgrams (n : Nat) (text : List String) (exclusive : Bool) : Ngrams :=
  (List.range (text.length + 1 - n)).foldl
    (fun ngramSet i => ngramSet.Add (Join ((text.drop i).take n) " "))
    (NewNgrams exclusive)

/-- Source `splitIntoWords`: the words of every sentence, appended in sentence order. -/
def splitIntoWords (sentences : List String) : List String :=
  sentences.foldl (fun words sentence => words ++ Split sentence) []

/-- Source `getWordNgrams`. -/
def getWordNgrams (n : Nat) (sentences : List String) (exclusive : Bool) : Ngrams :=
  let words := splitIntoWords sentences
  getNgrams n words exclusive

/-! ## LCS engine -/

/-- A Go `[][]int` holding the dynamic-programming table. -/
abbrev Table := List (List Nat)

/-- The read `table[i][j]`. -/
def Table.get (table : Table) (i j : Nat) : Nat :=
  (table.getD i []).getD j 0

/-- The write `table[i][j] = v`. -/
def Table.set (table : Table) (i j v : Nat) : Table :=
  List.set table i ((table.getD i []).set j v)

/-- The helper `max` of the source. -/
def max (a b : Nat) : Nat :=
  if a > b then a else b

/-- Source `lcs`: allocate an `(n+1) × (m+1)` table of zeros, then fill the cells
`i = 1..n`, `j = 1..m` row by row. -/
def lcs (x y : List String) : Table :=
  let n := x.length
  let m := y.length
  let table : Table := List.replicate (n + 1) (List.replicate (m + 1) 0)
  (List.range' 1 n).foldl
    (fun table i =>
      (List.range' 1 m).foldl
        (fun table j =>
          if x.getD (i - 1) "" = y.getD (j - 1) "" then
            table.set i j (table.get (i - 1) (j - 1) + 1)
          else
            table.set i j (max (table.get (i - 1) j) (table.get i (j - 1))))
        table)
    table

/-- Source `lenLcs`: `table[len(x)][len(y)]`. -/
def lenLcs (x y : List String) : Nat :=
  let table := lcs x y
  table.get x.length y.length

/-- The recursive closure `_recon` inside `reconLcs`, with a step budget as
first numeric argument (each call lowers `i + j`, so `i + j` steps suffice). -/
def reconAux (x y : List String) (table : Table) : Nat → Nat → Nat → List String
  | 0, _, _ => []
  | fuel + 1, i, j =>
    if i = 0 ∨ j = 0 then
      []
    else if x.getD (i - 1) "" = y.getD (j - 1) "" then
      reconAux x y table fuel (i - 1) (j - 1) ++ [x.getD (i - 1) ""]
    else if table.get (i - 1) j > table.get i (j - 1) then
      reconAux x y table fuel (i - 1) j
    else
      reconAux x y table fuel i (j - 1)

/-- The call `_recon(i, j)` for the table `lcs(x, y)`. -/
def _recon (x y : List String) (i j : Nat) : List String :=
  reconAux x y (lcs x y) (i + j) i j

/-- Source `reconLcs`: backtrack from `(len(x), len(y))` and add every token of the
resulting list to a fresh multiset. -/
def reconLcs (x y : List String) (exclusive : Bool) : Ngrams :=
  let reconList := _recon x y x.length y.length
  reconList.foldl (fun ngramList word => ngramList.Add word) (NewNgrams exclusive)

/-! ## Scoring formulas -/

/-- A Go `map[string]float64`, as its lookup function. -/
abbrev StatMap := String → Option ℚ

/-- Go `make(map[string]float64)`. -/
def StatMap.empty : StatMap := fun _ => none

/-- The write `results[k] = v`. -/
def StatMap.set (results : StatMap) (k : String) (v : ℚ) : StatMap :=
  fun k' => if k' = k then some v else results k'

/-- The read `results[k]`; a missing key reads as `0`. -/
def StatMap.get (results : StatMap) (k : String) : ℚ :=
  (results k).getD 0

/-- The smoothing constant `1e-8`. -/
def epsilon : ℚ := 1 / 10 ^ 8

/-- Source `calculateRougeN`: precision, recall and the smoothed F1. -/
def calculateRougeN (evaluatedCount referenceCount overlappingCount : Int) : StatMap :=
  let results := StatMap.empty
  let results :=
    if evaluatedCount = 0 then results.set "p" 0
    else results.set "p" ((overlappingCount : ℚ) / (evaluatedCount : ℚ))
  let results :=
    if referenceCount = 0 then results.set "r" 0
    else results.set "r" ((overlappingCount : ℚ) / (referenceCount : ℚ))
  results.set "f"
    (2 * ((results.get "p" * results.get "r") / (results.get "p" + results.get "r" + epsilon)))

/-- Source `rougeN`. -/
def rougeN (evaluatedSentences referenceSentences : List String) (n : Nat)
    (rawResults exclusive : Bool) : Except String StatMap :=
  if evaluatedSentences.length = 0 then
    Except.error "Hypothesis is empty."
  else if referenceSentences.length = 0 then
    Except.error "Reference is empty."
  else
    let evaluatedNgrams := getWordNgrams n evaluatedSentences exclusive
    let referenceNgrams := getWordNgrams n referenceSentences exclusive
    let referenceCount := referenceNgrams.Len
    let evaluatedCount := evaluatedNgrams.Len
    let overlappingNgrams := evaluatedNgrams.Intersection referenceNgrams
    let overlappingCount := overlappingNgrams.Len
    if rawResults then
      let results := StatMap.empty
      let results := results.set "hyp" (evaluatedCount : ℚ)
      let results := results.set "ref" (referenceCount : ℚ)
      let results := results.set "overlap" (overlappingCount : ℚ)
      Except.ok results
    else
      Except.ok (calculateRougeN evaluatedCount referenceCount overlappingCount)

/-! ## Union-LCS accumulator and summary-level ROUGE-L -/

/-- Source `unionLcs`: returns the increment `lcsUnion.Len() - prevCount` and the new
running union.  (The source also sums `lcs.Len()` into `combinedLcsLength`,
which it never reads.) -/
def unionLcs (evaluatedSentences : List String) (referenceSentence : String)
    (prevUnion : Option Ngrams) (exclusive : Bool) : Except String (Int × Ngrams) :=
  let prevUnion : Ngrams :=
    match prevUnion with
    | none => NewNgrams exclusive
    | some u => u
  if evaluatedSentences.length = 0 then
    Except.error "Collections must contain at least 1 sentence."
  else
    let prevCount := prevUnion.ngrams.keys.length
    let referenceWords := splitIntoWords [referenceSentence]
    let lcsUnion := evaluatedSentences.foldl
      (fun lcsUnion evalS =>
        let evaluatedWords := splitIntoWords [evalS]
        let lcs := reconLcs referenceWords evaluatedWords exclusive
        lcsUnion.Union [lcs])
      prevUnion
    let newLcsCount : Int := (lcsUnion.Len : Int) - (prevCount : Int)
    Except.ok (newLcsCount, lcsUnion)

/-- The loop of `rougeLSummaryLevel` over the reference sentences: the state is
`(unionLcsSumAcrossAllReferences, union)`. -/
def unionLcsSum (evaluatedSentences referenceSentences : List String)
    (exclusive : Bool) : Except String (Int × Ngrams) :=
  referenceSentences.foldlM
    (fun (state : Int × Ngrams) refS =>
      match unionLcs evaluatedSentences refS (some state.2) exclusive with
      | Except.error e => Except.error e
      | Except.ok (lcsCount, newUnion) => Except.ok (state.1 + lcsCount, newUnion))
    (0, NewNgrams exclusive)

/-- Source `rougeLSummaryLevel`. -/
def rougeLSummaryLevel (evaluatedSentences referenceSentences : List String)
    (rawResults exclusive : Bool) : Except String StatMap :=
  if evaluatedSentences.length = 0 ∨ referenceSentences.length = 0 then
    Except.error "Collections must contain at least 1 sentence."
  else
    let referenceNgrams := (NewNgrams exclusive).BatchAdd (splitIntoWords referenceSentences)
    let m := referenceNgrams.Len
    let evaluatedNgrams := (NewNgrams exclusive).BatchAdd (splitIntoWords evaluatedSentences)
    let n := evaluatedNgrams.Len
    match unionLcsSum evaluatedSentences referenceSentences exclusive with
    | Except.error e => Except.error e
    | Except.ok (llcs, _) =>
      let rLcs : ℚ := (llcs : ℚ) / (m : ℚ)
      let pLcs : ℚ := (llcs : ℚ) / (n : ℚ)
      let fLcs : ℚ := 2 * ((pLcs * rLcs) / (pLcs + rLcs + epsilon))
      let results := StatMap.empty
      if rawResults then
        let results := results.set "hyp" (n : ℚ)
        let results := results.set "ref" (m : ℚ)
        let results := results.set "overlap" (llcs : ℚ)
        Except.ok results
      else
        let results := results.set "f" fLcs
        let results := results.set "p" pLcs
        let results := results.set "r" rLcs
        Except.ok results

/-! ## Configuration and orchestration (`rouge.go`)

A function of `rouge.go` that returns `(value, error)` is given the type
`Result`: `ok` is a value with a nil error, `error` a non-nil returned error, and
`fault` a run-time panic (an out-of-range index, a call through a nil function
value, or a panic raised by a scoring function). -/

/-- The outcome of a call: a value, a returned error, or a run-time panic. -/
inductive Result (α : Type) where
  | ok (v : α)
  | error (msg : String)
  | fault (msg : String)

/-- The struct `Rouge`. -/
structure Rouge where
  returnLengths : Bool
  rawResults : Bool
  exclusive : Bool
  metrics : List String
  stats : List String

/-- The package variable `DefaultMetrics`. -/
def DefaultMetrics : List String := ["rouge-1", "rouge-2", "rouge-l"]

/-- The package variable `DefaultStats`. -/
def DefaultStats : List String := ["r", "p", "f"]

/-- The package variable `AvailableMetrics`, a map from metric name to scoring
closure; every closure passes `rawResults = false`. -/
def AvailableMetrics (m : String) :
    Option (List String → List String → Bool → Except String StatMap) :=
  if m = "rouge-1" then
    some fun hyp ref exclusive => rougeN hyp ref 1 false exclusive
  else if m = "rouge-2" then
    some fun hyp ref exclusive => rougeN hyp ref 2 false exclusive
  else if m = "rouge-l" then
    some fun hyp ref exclusive => rougeLSummaryLevel hyp ref false exclusive
  else
    none

/-- Source `contains`: linear search. -/
def contains : List String → String → Bool
  | [], _ => false
  | each :: rest, item => if each = item then true else contains rest item

/-- The validation loop over `r.metrics` in `NewRouge`: the first name that is
not a key of `AvailableMetrics`. -/
def firstUnknownMetric : List String → Option String
  | [] => none
  | m :: rest => if (AvailableMetrics m).isNone then some m else firstUnknownMetric rest

/-- The validation loop over `r.stats` in `NewRouge`: the first name that is not
in `DefaultStats`. -/
def firstUnknownStat : List String → Option String
  | [] => none
  | s :: rest => if !contains DefaultStats s then some s else firstUnknownStat rest

/-- Source `NewRouge`; a nil slice argument is `none`. -/
def NewRouge (metrics stats : Option (List String))
    (returnLengths rawResults exclusive : Bool) : Result Rouge :=
  let r : Rouge :=
    { returnLengths := returnLengths, rawResults := rawResults, exclusive := exclusive,
      metrics := [], stats := [] }
  let checked : Result Rouge :=
    match metrics with
    | some ms =>
      match firstUnknownMetric ms with
      | some m => Result.error ("Unknown metric \x27" ++ m ++ "\x27")
      | none => Result.ok { r with metrics := ms }
    | none => Result.ok { r with metrics := DefaultMetrics }
  match checked with
  | Result.error msg => Result.error msg
  | Result.fault msg => Result.fault msg
  | Result.ok r =>
    if rawResults then
      Result.ok { r with stats := ["hyp", "ref", "overlap"] }
    else
      match stats with
      | some ss =>
        match firstUnknownStat ss with
        | some s => Result.error ("Unknown stat \x27" ++ s ++ "\x27")
        | none => Result.ok { r with stats := ss }
      | none => Result.ok { r with stats := DefaultStats }

/-- Go `unicode.IsSpace`. -/
def isSpace (c : Char) : Bool :=
  let n := c.toNat
  (9 ≤ n && n ≤ 13) || n = 32 || n = 133 || n = 160 || n = 5760 ||
    (8192 ≤ n && n ≤ 8202) || n = 8232 || n = 8233 || n = 8239 || n = 8287 || n = 12288

/-- Go `strings.TrimSpace`: drop leading and trailing white space. -/
def TrimSpace (s : String) : String :=
  String.mk ((s.data.dropWhile isSpace).reverse.dropWhile isSpace).reverse

/-- The scan behind `strings.Split(s, ".")`. -/
def splitDotAux : List Char → List Char → List String
  | [], cur => [String.mk cur.reverse]
  | c :: cs, cur =>
    if c = '.' then String.mk cur.reverse :: splitDotAux cs []
    else splitDotAux cs (c :: cur)

/-- The scan behind `strings.Fields`: maximal runs of non-space characters. -/
def fieldsAux : List Char → List Char → List String
  | [], cur => if cur = [] then [] else [String.mk cur.reverse]
  | c :: cs, cur =>
    if isSpace c then
      if cur = [] then fieldsAux cs [] else String.mk cur.reverse :: fieldsAux cs []
    else fieldsAux cs (c :: cur)

/-- Go `strings.Fields`. -/
def Fields (s : String) : List String :=
  fieldsAux s.data []

/-- Source `splitSentences`: split at `.`, trim, keep the non-empty pieces. -/
def splitSentences (text : String) : List String :=
  let sentences := splitDotAux text.data []
  sentences.foldl
    (fun processedSentences sentence =>
      let trimmed := TrimSpace sentence
      if 0 < trimmed.utf8ByteSize then processedSentences ++ [trimmed]
      else processedSentences)
    []

/-- A Go `map[string]map[string]float64`, as its lookup function (wrapped in a
structure, so that a loop carrying such a map carries a value). -/
structure ScoreMap where
  entries : String → Option StatMap

/-- An empty `map[string]map[string]float64`. -/
def ScoreMap.empty : ScoreMap := { entries := fun _ => none }

/-- The write `scores[m] = v`. -/
def ScoreMap.set (scores : ScoreMap) (m : String) (v : StatMap) : ScoreMap :=
  { entries := fun k => if k = m then some v else scores.entries k }

/-- The write `scores[m][s] = v` into the inner map stored under `m`. -/
def ScoreMap.setStat (scores : ScoreMap) (m s : String) (v : ℚ) : ScoreMap :=
  scores.set m (((scores.entries m).getD StatMap.empty).set s v)

/-- The read `scores[m][s]`. -/
def ScoreMap.getStat (scores : ScoreMap) (m s : String) : ℚ :=
  ((scores.entries m).getD StatMap.empty).get s

/-- The loop over `r.metrics` in `getScores`: call the metric, then copy the
configured stats out of its result (`sc[s]` reads `0` for a missing key). -/
def metricLoop (r : Rouge) (hyp ref : List String) : List String → ScoreMap → Result ScoreMap
  | [], senScore => Result.ok senScore
  | m :: rest, senScore =>
    match AvailableMetrics m with
    | none => Result.fault "invalid memory address or nil pointer dereference"
    | some fn =>
      match fn hyp ref r.exclusive with
      | Except.error msg => Result.fault msg
      | Except.ok sc =>
        let senScore := senScore.set m StatMap.empty
        let senScore := r.stats.foldl (fun senScore s => senScore.setStat m s (sc.get s)) senScore
        metricLoop r hyp ref rest senScore

/-- The map `lengths` of `getScores`. -/
def lengthsOf (hyp ref : List String) : StatMap :=
  (StatMap.empty.set "hyp" ((Fields (Join hyp " ")).length : ℚ)).set "ref"
    ((Fields (Join ref " ")).length : ℚ)

/-- The loop `for i := 0; i < len(hyps); i++` of `getScores`, over the indices
still to visit. -/
def getScoresLoop (r : Rouge) (hyps refs : List String) :
    List Nat → List ScoreMap → Result (List ScoreMap)
  | [], scores => Result.ok scores
  | i :: rest, scores =>
    let hyp := splitSentences (hyps.getD i "")
    match refs[i]? with
    | none => Result.fault "index out of range"
    | some refText =>
      let ref := splitSentences refText
      match metricLoop r hyp ref r.metrics ScoreMap.empty with
      | Result.error msg => Result.error msg
      | Result.fault msg => Result.fault msg
      | Result.ok senScore =>
        let senScore :=
          if r.returnLengths then senScore.set "lengths" (lengthsOf hyp ref) else senScore
        getScoresLoop r hyps refs rest (scores ++ [senScore])

/-- Source `Rouge.getScores`. -/
def getScores (r : Rouge) (hyps refs : List String) : Result (List ScoreMap) :=
  getScoresLoop r hyps refs (List.range hyps.length) []

/-- The loop over `r.metrics` inside `getAvgScores`: `scores[m][s] += sc[s]`. -/
def avgMetricLoop (r : Rouge) (hyp ref : List String) : List String → ScoreMap → Result ScoreMap
  | [], scores => Result.ok scores
  | m :: rest, scores =>
    match AvailableMetrics m with
    | none => Result.fault "invalid memory address or nil pointer dereference"
    | some fn =>
      match fn hyp ref r.exclusive with
      | Except.error msg => Result.fault msg
      | Except.ok sc =>
        let scores :=
          r.stats.foldl (fun scores s => scores.setStat m s (scores.getStat m s + sc.get s)) scores
        avgMetricLoop r hyp ref rest scores

/-- The loop over the text pairs inside `getAvgScores`; the state is
`(scores, count)`. -/
def getAvgScoresLoop (r : Rouge) (hyps refs : List String) :
    List Nat → ScoreMap × Nat → Result (ScoreMap × Nat)
  | [], state => Result.ok state
  | i :: rest, (scores, count) =>
    let hyp := splitSentences (hyps.getD i "")
    match refs[i]? with
    | none => Result.fault "index out of range"
    | some refText =>
      let ref := splitSentences refText
      match avgMetricLoop r hyp ref r.metrics scores with
      | Result.error msg => Result.error msg
      | Result.fault msg => Result.fault msg
      | Result.ok scores => getAvgScoresLoop r hyps refs rest (scores, count + 1)

/-- Source `Rouge.getAvgScores`: zero every configured stat, add up the scores of
all pairs, divide by the number of pairs. -/
def getAvgScores (r : Rouge) (hyps refs : List String) : Result ScoreMap :=
  let scores := r.metrics.foldl
    (fun scores m =>
      r.stats.foldl (fun scores s => scores.setStat m s 0) (scores.set m StatMap.empty))
    ScoreMap.empty
  match getAvgScoresLoop r hyps refs (List.range hyps.length) (scores, 0) with
  | Result.error msg => Result.error msg
  | Result.fault msg => Result.fault msg
  | Result.ok (scores, count) =>
    Result.ok
      { entries := fun m =>
          (scores.entries m).map fun inner => fun s => (inner s).map fun v => v / (count : ℚ) }

/-- The value of type `interface{}` returned by `GetScores`: one mapping per
pair, or one averaged mapping. -/
inductive Scores where
  | list (scores : List ScoreMap)
  | avg (scores : ScoreMap)

/-- The filtering loop of `GetScores` under `ignoreEmpty`; `refs[i]` is read
only when `len(hyps[i]) > 0`. -/
def filterEmptyLoop (hyps refs : List String) :
    List Nat → List String × List String → Result (List String × List String)
  | [], filtered => Result.ok filtered
  | i :: rest, (filteredHyps, filteredRefs) =>
    if 0 < (hyps.getD i "").utf8ByteSize then
      match refs[i]? with
      | none => Result.fault "index out of range"
      | some refText =>
        if 0 < refText.utf8ByteSize then
          filterEmptyLoop hyps refs rest
            (filteredHyps ++ [hyps.getD i ""], filteredRefs ++ [refText])
        else filterEmptyLoop hyps refs rest (filteredHyps, filteredRefs)
    else filterEmptyLoop hyps refs rest (filteredHyps, filteredRefs)

/-- Source `Rouge.GetScores`.  Both arguments have the static type `[]string`,
so the `reflect.TypeOf` comparison never differs and is left out. -/
def GetScores (r : Rouge) (hyps refs : List String) (avg ignoreEmpty : Bool) :
    Result Scores :=
  let filtered : Result (List String × List String) :=
    if ignoreEmpty then filterEmptyLoop hyps refs (List.range hyps.length) ([], [])
    else Result.ok (hyps, refs)
  match filtered with
  | Result.error msg => Result.error msg
  | Result.fault msg => Result.fault msg
  | Result.ok (hyps, refs) =>
    if hyps.length ≠ refs.length then
      Result.error "the number of hypotheses and references must be equal"
    else if !avg then
      match getScores r hyps refs with
      | Result.error msg => Result.error msg
      | Result.fault msg => Result.fault msg
      | Result.ok scores => Result.ok (Scores.list scores)
    else
      match getAvgScores r hyps refs with
      | Result.error msg => Result.error msg
      | Result.fault msg => Result.fault msg
      | Result.ok scores => Result.ok (Scores.avg scores)

/-- The hypothesis text of `Test_score`. -/
def testHyps : List String :=
  ["the transcript is a written version of each day \x27s cnn student news programK"]

/-- The reference text of `Test_score`. -/
def testRefs : List String :=
  ["this page includes the show transcript use the transcript to help students with reading comprehension and vocabulary at the bottom of the page"]

/-! ## Specification-side definitions -/

/-- The number `k` is the length of a longest common subsequence of `a` and `b`. -/
def IsLcsLength (a b : List String) (k : Nat) : Prop :=
  (∃ s : List String, s <+ a ∧ s <+ b ∧ s.length = k) ∧
    ∀ s : List String, s <+ a → s <+ b → s.length ≤ k

/-- The textbook recurrence for the LCS length, on lists read from the front. -/
def lcsLen : List String → List String → Nat
  | [], _ => 0
  | _ :: _, [] => 0
  | a :: xs, b :: ys =>
    if a = b then lcsLen xs ys + 1 else max (lcsLen xs (b :: ys)) (lcsLen (a :: xs) ys)
termination_by xs ys => xs.length + ys.length

/-- The value the table must hold in cell `(i, j)`. -/
def cellSpec (x y : List String) (i j : Nat) : Nat :=
  lcsLen (x.take i).reverse (y.take j).reverse

/-- The table has `n + 1` rows of `m + 1` cells. -/
structure Dims (t : Table) (n m : Nat) : Prop where
  rows : t.length = n + 1
  cols : ∀ i, i ≤ n → (t.getD i []).length = m + 1

/-- The body of the inner loop of `lcs`. -/
def lcsCell (x y : List String) (i : Nat) (table : Table) (j : Nat) : Table :=
  if x.getD (i - 1) "" = y.getD (j - 1) "" then
    table.set i j (table.get (i - 1) (j - 1) + 1)
  else
    table.set i j (max (table.get (i - 1) j) (table.get i (j - 1)))

/-- The body of the outer loop of `lcs`. -/
def lcsRow (x y : List String) (table : Table) (i : Nat) : Table :=
  (List.range' 1 y.length).foldl (lcsCell x y i) table

/-- Loop invariant of `lcs`: the cells of rows below `i`, the first `c` cells of
row `i`, and column `0` hold their final values. -/
def Filled (x y : List String) (t : Table) (i c : Nat) : Prop :=
  Dims t x.length y.length ∧
    ∀ i' j', i' ≤ x.length → j' ≤ y.length →
      (i' < i ∨ (i' = i ∧ j' ≤ c) ∨ j' = 0) → t.get i' j' = cellSpec x y i' j'

/-- The set of keys of the map held by an `Ngrams` value. -/
def Ngrams.keySet (n : Ngrams) : Finset String :=
  n.ngrams.keys.toFinset

/-- The set of distinct tokens of the flattened sentence list. -/
def tokenSet (sentences : List String) : Finset String :=
  (splitIntoWords sentences).toFinset

/-- The tokens of reference sentence `r` that lie on the reconstructed LCS of
`r` with some hypothesis sentence. -/
def coveredBy (H : List String) (r : String) (e : Bool) : Finset String :=
  H.toFinset.biUnion fun h => (reconLcs (splitIntoWords [r]) (splitIntoWords [h]) e).keySet

/-- The union, over every pair of a reference and a hypothesis sentence, of the
keys of `reconLcs` of their words. -/
def unionLcsSet (H R : List String) (e : Bool) : Finset String :=
  R.toFinset.biUnion fun r => coveredBy H r e

/-- The running union after the inner loop of `unionLcs`. -/
def unionFold (H : List String) (r : String) (prev : Ngrams) (e : Bool) : Ngrams :=
  H.foldl
    (fun lcsUnion evalS =>
      lcsUnion.Union [reconLcs (splitIntoWords [r]) (splitIntoWords [evalS]) e])
    prev

/-- The value stored under `k` by a scoring call (`none` when the call failed
or the key is absent). -/
def stat (r : Except String StatMap) (k : String) : Option ℚ :=
  match r with
  | Except.ok m => m k
  | Except.error _ => none

/-- The stat mapping `rougeLSummaryLevel` builds from the three counts. -/
def summaryStats (n m : Nat) (llcs : Int) (rawResults : Bool) : StatMap :=
  let rLcs : ℚ := (llcs : ℚ) / (m : ℚ)
  let pLcs : ℚ := (llcs : ℚ) / (n : ℚ)
  let fLcs : ℚ := 2 * ((pLcs * rLcs) / (pLcs + rLcs + epsilon))
  if rawResults then
    ((StatMap.empty.set "hyp" (n : ℚ)).set "ref" (m : ℚ)).set "overlap" (llcs : ℚ)
  else
    ((StatMap.empty.set "f" fLcs).set "p" pLcs).set "r" rLcs

/-- The keys `getNgrams` adds, in loop order: the space-joined windows
`text[i:i+n]` for `i = 0, …, len(text) - n`. -/
def ngramKeys (n : Nat) (text : List String) : List String :=
  (List.range (text.length + 1 - n)).map fun i => Join ((text.drop i).take n) " "

/-- The set of distinct `n`-gram keys of the flattened sentence list. -/
def ngramSet (n : Nat) (sentences : List String) : Finset String :=
  (ngramKeys n (splitIntoWords sentences)).toFinset

/-- The characters that follow the first token in a space-joined key: each
further token preceded by one space. -/
def joinChars : List String → List Char
  | [] => []
  | b :: bs => ' ' :: (b.data ++ joinChars bs)

/-- The stat mapping that the metric named `m` returns for a pair of sentence
lists (empty when there is no such metric or the call panics). -/
def metricValue (m : String) (hyp ref : List String) (e : Bool) : StatMap :=
  match AvailableMetrics m with
  | some fn =>
    match fn hyp ref e with
    | Except.ok sc => sc
    | Except.error _ => StatMap.empty
  | none => StatMap.empty

/-- The inner map reported under metric `m`: each configured stat with the value
read from the metric's result. -/
def statEntry (r : Rouge) (hyp ref : List String) (m : String) : StatMap :=
  fun s => if s ∈ r.stats then some ((metricValue m hyp ref r.exclusive).get s) else none

/-- The score mapping reported for the pair at index `i`. -/
def pairEntry (r : Rouge) (hyps refs : List String) (i : Nat) : ScoreMap :=
  { entries := fun k =>
      if r.returnLengths = true ∧ k = "lengths" then
        some (lengthsOf (splitSentences (hyps.getD i "")) (splitSentences (refs.getD i "")))
      else if k ∈ r.metrics then
        some (statEntry r (splitSentences (hyps.getD i "")) (splitSentences (refs.getD i "")) k)
      else none }

/-! ## The LCS table -/

theorem le_max_left (a b : Nat) : a ≤ max a b := by
  unfold max
  split_ifs <;> omega

theorem le_max_right (a b : Nat) : b ≤ max a b := by
  unfold max
  split_ifs <;> omega

theorem max_eq_right {a b : Nat} (h : a ≤ b) : max a b = b := by
  unfold max
  split_ifs <;> omega

theorem max_eq_left {a b : Nat} (h : b ≤ a) : max a b = a := by
  unfold max
  split_ifs <;> omega

theorem lcsLen_nil_right (xs : List String) : lcsLen xs [] = 0 := by
  cases xs <;> simp [lcsLen]

theorem tail_sublist_of_cons {c a : String} {s xs : List String}
    (h : c :: s <+ a :: xs) : s <+ xs := by
  cases h with
  | cons _ h => exact (List.sublist_cons_self c s).trans h
  | cons₂ _ h => exact h

theorem lcsLen_upper : ∀ (xs ys s : List String), s <+ xs → s <+ ys →
    s.length ≤ lcsLen xs ys := by
  intro xs
  induction xs with
  | nil =>
    intro ys s hx _
    simp [List.sublist_nil.mp hx]
  | cons a xs ihx =>
    intro ys
    induction ys with
    | nil =>
      intro s _ hy
      simp [List.sublist_nil.mp hy]
    | cons b ys ihy =>
      intro s hx hy
      rw [lcsLen]
      split_ifs with hab
      · cases s with
        | nil => simp
        | cons c s =>
          have h1 := tail_sublist_of_cons hx
          have h2 := tail_sublist_of_cons hy
          have := ihx ys s h1 h2
          simp only [List.length_cons]
          omega
      · rcases List.sublist_cons_iff.mp hx with h | ⟨r, rfl, _⟩
        · exact le_trans (ihx (b :: ys) s h hy) (le_max_left _ _)
        · rcases List.sublist_cons_iff.mp hy with h | ⟨r', hr', _⟩
          · exact le_trans (ihy _ hx h) (le_max_right _ _)
          · exact absurd (List.cons.inj hr').1 hab

theorem lcsLen_attained : ∀ (xs ys : List String),
    ∃ s : List String, s <+ xs ∧ s <+ ys ∧ s.length = lcsLen xs ys := by
  intro xs
  induction xs with
  | nil =>
    intro ys
    exact ⟨[], List.nil_sublist _, List.nil_sublist _, by simp [lcsLen]⟩
  | cons a xs ihx =>
    intro ys
    induction ys with
    | nil => exact ⟨[], List.nil_sublist _, List.nil_sublist _, by simp [lcsLen]⟩
    | cons b ys ihy =>
      rw [lcsLen]
      split_ifs with hab
      · obtain ⟨s, h1, h2, h3⟩ := ihx ys
        subst hab
        exact ⟨a :: s, h1.cons₂ a, h2.cons₂ a, by simp [h3]⟩
      · rcases Nat.le_total (lcsLen xs (b :: ys)) (lcsLen (a :: xs) ys) with h | h
        · obtain ⟨s, h1, h2, h3⟩ := ihy
          exact ⟨s, h1, h2.cons b, by rw [h3, max_eq_right h]⟩
        · obtain ⟨s, h1, h2, h3⟩ := ihx (b :: ys)
          exact ⟨s, h1.cons a, h2, by rw [h3, max_eq_left h]⟩

theorem isLcsLength_reverse (a b : List String) :
    IsLcsLength a b (lcsLen a.reverse b.reverse) := by
  constructor
  · obtain ⟨s, h1, h2, h3⟩ := lcsLen_attained a.reverse b.reverse
    refine ⟨s.reverse, ?_, ?_, by simpa using h3⟩
    · simpa using List.reverse_sublist.mpr h1
    · simpa using List.reverse_sublist.mpr h2
  · intro s h1 h2
    have := lcsLen_upper a.reverse b.reverse s.reverse
      (List.reverse_sublist.mpr h1) (List.reverse_sublist.mpr h2)
    simpa using this

theorem take_succ_reverse (x : List String) (i : Nat) (h : i < x.length) :
    (x.take (i + 1)).reverse = x.getD i "" :: (x.take i).reverse := by
  rw [List.take_succ, List.getD_eq_getElem?_getD, List.getElem?_eq_getElem h]
  simp

theorem cellSpec_zero_left (x y : List String) (j : Nat) : cellSpec x y 0 j = 0 := by
  simp [cellSpec, lcsLen]

theorem cellSpec_zero_right (x y : List String) (i : Nat) : cellSpec x y i 0 = 0 := by
  simp [cellSpec, lcsLen_nil_right]

theorem cellSpec_succ (x y : List String) (i j : Nat) (hi : i < x.length)
    (hj : j < y.length) :
    cellSpec x y (i + 1) (j + 1) =
      if x.getD i "" = y.getD j "" then cellSpec x y i j + 1
      else max (cellSpec x y i (j + 1)) (cellSpec x y (i + 1) j) := by
  unfold cellSpec
  rw [take_succ_reverse x i hi, take_succ_reverse y j hj, lcsLen]

theorem Table.get_set (t : Table) (n m i j v i' j' : Nat) (hd : Dims t n m)
    (hi : i ≤ n) (hj : j ≤ m) :
    (t.set i j v).get i' j' = if i' = i ∧ j' = j then v else t.get i' j' := by
  have hrow : i < t.length := by rw [hd.rows]; omega
  have hcol : j < (t.getD i []).length := by rw [hd.cols i hi]; omega
  unfold Table.get Table.set
  by_cases h1 : i' = i
  · subst h1
    by_cases h2 : j' = j
    · subst h2
      rw [List.getD_eq_getElem t [] hrow] at hcol
      simp only [List.getD_eq_getElem?_getD]
      simp [List.getElem?_set, hrow, hcol]
    · have h2' : j ≠ j' := fun h => h2 h.symm
      simp only [List.getD_eq_getElem?_getD]
      simp [List.getElem?_set, hrow, h2, h2']
  · have h1' : i ≠ i' := fun h => h1 h.symm
    simp only [List.getD_eq_getElem?_getD]
    simp [List.getElem?_set, h1, h1']

theorem Dims.set {t : Table} {n m : Nat} (hd : Dims t n m) (i j v : Nat) :
    Dims (t.set i j v) n m := by
  constructor
  · simp [Table.set, hd.rows]
  · intro k hk
    have hrow : k < t.length := by rw [hd.rows]; omega
    unfold Table.set
    by_cases h : i = k
    · subst h
      have := hd.cols i hk
      rw [List.getD_eq_getElem t [] hrow] at this
      simp only [List.getD_eq_getElem?_getD]
      simp [List.getElem?_set, hrow, this]
    · have := hd.cols k hk
      simp only [List.getD_eq_getElem?_getD] at this ⊢
      simp [List.getElem?_set, h, this]

theorem Dims.lcsCell {x y : List String} {t : Table} {n m : Nat} (hd : Dims t n m)
    (i j : Nat) : Dims (lcsCell x y i t j) n m := by
  unfold Rouge.lcsCell
  split_ifs
  · exact hd.set _ _ _
  · exact hd.set _ _ _

theorem dims_init (n m : Nat) :
    Dims (List.replicate (n + 1) (List.replicate (m + 1) 0)) n m := by
  constructor
  · simp
  · intro i hi
    have : i < n + 1 := by omega
    simp [List.getD_eq_getElem?_getD, List.getElem?_replicate, this]

theorem get_init (n m i j : Nat) :
    Table.get (List.replicate (n + 1) (List.replicate (m + 1) 0)) i j = 0 := by
  unfold Table.get
  simp only [List.getD_eq_getElem?_getD, List.getElem?_replicate]
  split_ifs
  · simp only [Option.getD_some, List.getElem?_replicate]
    split_ifs <;> rfl
  · rfl

theorem filled_init (x y : List String) :
    Filled x y (List.replicate (x.length + 1) (List.replicate (y.length + 1) 0)) 1 0 := by
  refine ⟨dims_init _ _, ?_⟩
  intro i' j' _ _ h
  rw [get_init]
  rcases h with h | ⟨_, h⟩ | h
  · have : i' = 0 := by omega
    subst this
    exact (cellSpec_zero_left x y j').symm
  · have : j' = 0 := by omega
    subst this
    exact (cellSpec_zero_right x y i').symm
  · subst h
    exact (cellSpec_zero_right x y i').symm

theorem filled_cell (x y : List String) (t : Table) (i c : Nat)
    (hi : i < x.length) (hc : c < y.length) (h : Filled x y t (i + 1) c) :
    Filled x y (lcsCell x y (i + 1) t (c + 1)) (i + 1) (c + 1) := by
  obtain ⟨hd, hcells⟩ := h
  refine ⟨hd.lcsCell _ _, ?_⟩
  have e1 : t.get i c = cellSpec x y i c :=
    hcells i c (by omega) (by omega) (Or.inl (by omega))
  have e2 : t.get i (c + 1) = cellSpec x y i (c + 1) :=
    hcells i (c + 1) (by omega) (by omega) (Or.inl (by omega))
  have e3 : t.get (i + 1) c = cellSpec x y (i + 1) c :=
    hcells (i + 1) c (by omega) (by omega) (Or.inr (Or.inl ⟨rfl, le_refl _⟩))
  have hnew : ∀ i' j', (lcsCell x y (i + 1) t (c + 1)).get i' j' =
      if i' = i + 1 ∧ j' = c + 1 then cellSpec x y (i + 1) (c + 1) else t.get i' j' := by
    intro i' j'
    unfold Rouge.lcsCell
    simp only [Nat.add_sub_cancel]
    rw [cellSpec_succ x y i c hi hc]
    split_ifs with hxy h1 h1
    · rw [Table.get_set t _ _ _ _ _ _ _ hd (by omega) (by omega), if_pos h1, e1]
    · rw [Table.get_set t _ _ _ _ _ _ _ hd (by omega) (by omega), if_neg h1]
    · rw [Table.get_set t _ _ _ _ _ _ _ hd (by omega) (by omega), if_pos h1, e2, e3]
    · rw [Table.get_set t _ _ _ _ _ _ _ hd (by omega) (by omega), if_neg h1]
  intro i' j' hi' hj' hreg
  rw [hnew]
  split_ifs with h1
  · rw [h1.1, h1.2]
  · apply hcells i' j' hi' hj'
    rcases hreg with h | ⟨h2, h3⟩ | h
    · exact Or.inl h
    · refine Or.inr (Or.inl ⟨h2, ?_⟩)
      by_contra hcon
      exact h1 ⟨h2, by omega⟩
    · exact Or.inr (Or.inr h)

theorem filled_cells (x y : List String) (i : Nat) (hi : i < x.length) :
    ∀ (c : Nat) (t : Table), c ≤ y.length → Filled x y t (i + 1) 0 →
      Filled x y ((List.range' 1 c).foldl (lcsCell x y (i + 1)) t) (i + 1) c := by
  intro c
  induction c with
  | zero => intro t _ h; simpa using h
  | succ c ih =>
    intro t hc h
    rw [List.range'_1_concat, List.foldl_append]
    simp only [List.foldl_cons, List.foldl_nil]
    rw [Nat.add_comm 1 c]
    exact filled_cell x y _ i c hi (by omega) (ih t (by omega) h)

theorem filled_row (x y : List String) (t : Table) (i : Nat) (hi : i < x.length)
    (h : Filled x y t (i + 1) 0) : Filled x y (lcsRow x y t (i + 1)) (i + 2) 0 := by
  obtain ⟨hd, hcells⟩ := filled_cells x y i hi y.length t (le_refl _) h
  refine ⟨hd, ?_⟩
  intro i' j' hi' hj' hreg
  apply hcells i' j' hi' hj'
  rcases hreg with h | ⟨_, h⟩ | h
  · by_cases h' : i' < i + 1
    · exact Or.inl h'
    · exact Or.inr (Or.inl ⟨by omega, hj'⟩)
  · exact Or.inr (Or.inr (by omega))
  · exact Or.inr (Or.inr h)

theorem filled_rows (x y : List String) :
    ∀ (k : Nat) (t : Table), k ≤ x.length → Filled x y t 1 0 →
      Filled x y ((List.range' 1 k).foldl (lcsRow x y) t) (k + 1) 0 := by
  intro k
  induction k with
  | zero => intro t _ h; simpa using h
  | succ k ih =>
    intro t hk h
    rw [List.range'_1_concat, List.foldl_append]
    simp only [List.foldl_cons, List.foldl_nil]
    rw [Nat.add_comm 1 k]
    exact filled_row x y _ k (by omega) (ih t (by omega) h)

theorem lcs_eq_foldl (x y : List String) :
    lcs x y = (List.range' 1 x.length).foldl (lcsRow x y)
      (List.replicate (x.length + 1) (List.replicate (y.length + 1) 0)) := rfl

theorem lcs_filled (x y : List String) : Filled x y (lcs x y) (x.length + 1) 0 := by
  rw [lcs_eq_foldl]
  exact filled_rows x y x.length _ (le_refl _) (filled_init x y)

theorem lcs_get (x y : List String) (i j : Nat) (hi : i ≤ x.length) (hj : j ≤ y.length) :
    (lcs x y).get i j = cellSpec x y i j :=
  (lcs_filled x y).2 i j hi hj (Or.inl (by omega))

/-- C1. Cell `[i][j]` of `lcs(x, y)` is the length of a longest common
subsequence of the first `i` tokens of `x` and the first `j` tokens of `y`, and
`lenLcs(x, y)` is the longest-common-subsequence length of `x` and `y`; the
table has `len(x) + 1` rows of `len(y) + 1` cells. -/
theorem lcs_table_correct (x y : List String) (i j : Nat)
    (hi : i ≤ x.length) (hj : j ≤ y.length) :
    IsLcsLength (x.take i) (y.take j) ((lcs x y).get i j) ∧
      IsLcsLength x y (lenLcs x y) ∧ Dims (lcs x y) x.length y.length := by
  refine ⟨?_, ?_, (lcs_filled x y).1⟩
  · rw [lcs_get x y i j hi hj]
    exact isLcsLength_reverse _ _
  · unfold lenLcs
    simp only
    rw [lcs_get x y _ _ (le_refl _) (le_refl _)]
    have := isLcsLength_reverse (x.take x.length) (y.take y.length)
    simpa [cellSpec] using this

/-- C1 at `x = ["a", "b", "d"]`, `y = ["a", "b", "c"]`, cell `(2, 3)`. -/
theorem lcs_table_correct_witness :
    (2 ≤ ["a", "b", "d"].length ∧ 3 ≤ ["a", "b", "c"].length) ∧
      IsLcsLength (List.take 2 ["a", "b", "d"]) (List.take 3 ["a", "b", "c"])
        ((lcs ["a", "b", "d"] ["a", "b", "c"]).get 2 3) ∧
      IsLcsLength ["a", "b", "d"] ["a", "b", "c"] (lenLcs ["a", "b", "d"] ["a", "b", "c"]) ∧
      Dims (lcs ["a", "b", "d"] ["a", "b", "c"]) 3 3 :=
  ⟨⟨by decide, by decide⟩,
    lcs_table_correct ["a", "b", "d"] ["a", "b", "c"] 2 3 (by decide) (by decide)⟩

theorem take_succ_getD (x : List String) (i : Nat) (h : i < x.length) :
    x.take (i + 1) = x.take i ++ [x.getD i ""] := by
  rw [List.take_succ, List.getD_eq_getElem?_getD, List.getElem?_eq_getElem h]
  simp

theorem reconAux_fuel (x y : List String) (t : Table) :
    ∀ (f1 f2 i j : Nat), i + j ≤ f1 → i + j ≤ f2 →
      reconAux x y t f1 i j = reconAux x y t f2 i j := by
  intro f1
  induction f1 with
  | zero =>
    intro f2 i j h1 _
    have hi : i = 0 := by omega
    subst hi
    cases f2 with
    | zero => rfl
    | succ f2 => simp [reconAux]
  | succ f1 ih =>
    intro f2 i j h1 h2
    cases f2 with
    | zero =>
      have hi : i = 0 := by omega
      subst hi
      simp [reconAux]
    | succ f2 =>
      simp only [reconAux]
      by_cases h0 : i = 0 ∨ j = 0
      · simp [h0]
      · have hi : i ≠ 0 := fun h => h0 (Or.inl h)
        have hj : j ≠ 0 := fun h => h0 (Or.inr h)
        rw [if_neg h0, if_neg h0]
        rw [ih f2 (i - 1) (j - 1) (by omega) (by omega),
          ih f2 (i - 1) j (by omega) (by omega), ih f2 i (j - 1) (by omega) (by omega)]

theorem reconAux_spec (x y : List String) :
    ∀ (fuel i j : Nat), i ≤ x.length → j ≤ y.length → i + j ≤ fuel →
      reconAux x y (lcs x y) fuel i j <+ x.take i ∧
      reconAux x y (lcs x y) fuel i j <+ y.take j ∧
      (reconAux x y (lcs x y) fuel i j).length = (lcs x y).get i j := by
  intro fuel
  induction fuel with
  | zero =>
    intro i j hi hj h
    have hi0 : i = 0 := by omega
    have hj0 : j = 0 := by omega
    subst hi0 hj0
    refine ⟨by simp [reconAux], by simp [reconAux], ?_⟩
    rw [lcs_get x y 0 0 hi hj, cellSpec_zero_left]
    simp [reconAux]
  | succ fuel ih =>
    intro i j hi hj h
    rw [lcs_get x y i j hi hj]
    cases i with
    | zero =>
      rw [cellSpec_zero_left]
      simp [reconAux]
    | succ i =>
      cases j with
      | zero =>
        rw [cellSpec_zero_right]
        simp [reconAux]
      | succ j =>
        have hi' : i < x.length := by omega
        have hj' : j < y.length := by omega
        have hne : ¬ (i + 1 = 0 ∨ j + 1 = 0) := by omega
        rw [cellSpec_succ x y i j hi' hj']
        simp only [reconAux, if_neg hne, Nat.add_sub_cancel]
        split_ifs with hxy hgt
        · obtain ⟨h1, h2, h3⟩ := ih i j (by omega) (by omega) (by omega)
          rw [lcs_get x y i j (by omega) (by omega)] at h3
          refine ⟨?_, ?_, ?_⟩
          · rw [take_succ_getD x i hi']
            exact List.Sublist.append h1 (List.Sublist.refl _)
          · rw [take_succ_getD y j hj', ← hxy]
            exact List.Sublist.append h2 (List.Sublist.refl _)
          · simp [h3]
        · obtain ⟨h1, h2, h3⟩ := ih i (j + 1) (by omega) (by omega) (by omega)
          rw [lcs_get x y i (j + 1) (by omega) (by omega)] at h3
          rw [lcs_get x y i (j + 1) (by omega) (by omega),
            lcs_get x y (i + 1) j (by omega) (by omega)] at hgt
          refine ⟨?_, h2, ?_⟩
          · rw [take_succ_getD x i hi']
            exact h1.trans (List.sublist_append_left _ _)
          · rw [h3, max_eq_left (Nat.le_of_lt hgt)]
        · obtain ⟨h1, h2, h3⟩ := ih (i + 1) j (by omega) (by omega) (by omega)
          rw [lcs_get x y (i + 1) j (by omega) (by omega)] at h3
          rw [lcs_get x y i (j + 1) (by omega) (by omega),
            lcs_get x y (i + 1) j (by omega) (by omega)] at hgt
          refine ⟨h1, ?_, ?_⟩
          · rw [take_succ_getD y j hj']
            exact h2.trans (List.sublist_append_left _ _)
          · rw [h3, max_eq_right (Nat.le_of_not_lt hgt)]

/-- C2. The list `_recon(len(x), len(y))` built by the backtracking walk of
`reconLcs` is a subsequence of `x` and of `y`, in document order, its length is
`lenLcs(x, y)`, and no common subsequence of `x` and `y` is longer; the walk
needs no more than `len(x) + len(y)` steps (a larger budget gives the same
list). -/
theorem recon_is_longest_common_subsequence (x y : List String) :
    _recon x y x.length y.length <+ x ∧
      _recon x y x.length y.length <+ y ∧
      (_recon x y x.length y.length).length = lenLcs x y ∧
      (∀ s : List String, s <+ x ∧ s <+ y →
        s.length ≤ (_recon x y x.length y.length).length) ∧
      ∀ k : Nat, reconAux x y (lcs x y) (x.length + y.length + k) x.length y.length =
        _recon x y x.length y.length := by
  obtain ⟨h1, h2, h3⟩ :=
    reconAux_spec x y (x.length + y.length) x.length y.length (le_refl _) (le_refl _)
      (le_refl _)
  have hlen : (lcs x y).get x.length y.length = lcsLen x.reverse y.reverse := by
    rw [lcs_get x y _ _ (le_refl _) (le_refl _)]
    simp [cellSpec]
  refine ⟨by simpa using h1, by simpa using h2, h3, ?_, ?_⟩
  · intro s hs
    unfold _recon
    rw [h3, hlen]
    exact (isLcsLength_reverse x y).2 s hs.1 hs.2
  · intro k
    exact reconAux_fuel x y (lcs x y) _ _ _ _ (by omega) (le_refl _)

/-- C2 at `x = ["a", "b", "d", "a"]`, `y = ["a", "b", "c", "a"]`. -/
theorem recon_is_longest_common_subsequence_witness :
    _recon ["a", "b", "d", "a"] ["a", "b", "c", "a"] 4 4 <+ ["a", "b", "d", "a"] ∧
      _recon ["a", "b", "d", "a"] ["a", "b", "c", "a"] 4 4 <+ ["a", "b", "c", "a"] ∧
      (_recon ["a", "b", "d", "a"] ["a", "b", "c", "a"] 4 4).length =
        lenLcs ["a", "b", "d", "a"] ["a", "b", "c", "a"] ∧
      (∀ s : List String, s <+ ["a", "b", "d", "a"] ∧ s <+ ["a", "b", "c", "a"] →
        s.length ≤ (_recon ["a", "b", "d", "a"] ["a", "b", "c", "a"] 4 4).length) ∧
      ∀ k : Nat, reconAux ["a", "b", "d", "a"] ["a", "b", "c", "a"]
          (lcs ["a", "b", "d", "a"] ["a", "b", "c", "a"]) (4 + 4 + k) 4 4 =
        _recon ["a", "b", "d", "a"] ["a", "b", "c", "a"] 4 4 :=
  recon_is_longest_common_subsequence ["a", "b", "d", "a"] ["a", "b", "c", "a"]

/-! ## Key sets of n-gram multisets -/

theorem Ngrams.Len_eq_card (n : Ngrams) : n.Len = n.keySet.card :=
  (List.toFinset_card_of_nodup n.ngrams.keys_nodup).symm

theorem keySet_NewNgrams (e : Bool) : (NewNgrams e).keySet = ∅ := by
  simp [Ngrams.keySet, NewNgrams]

theorem Ngrams.mem_keySet (n : Ngrams) (k : String) : k ∈ n.keySet ↔ k ∈ n.ngrams := by
  simp [Ngrams.keySet, AList.mem_keys]

theorem Ngrams.keySet_Add (n : Ngrams) (o : String) :
    (n.Add o).keySet = insert o n.keySet := by
  ext k
  rw [Finset.mem_insert, Ngrams.mem_keySet, Ngrams.mem_keySet]
  unfold Ngrams.Add
  split_ifs <;> exact AList.mem_insert _

theorem Ngrams.keySet_foldl_Add (l : List String) :
    ∀ n : Ngrams, (l.foldl (fun acc v => acc.Add v) n).keySet = n.keySet ∪ l.toFinset := by
  induction l with
  | nil => intro n; simp
  | cons a l ih =>
    intro n
    rw [List.foldl_cons, ih, Ngrams.keySet_Add]
    ext k
    simp only [Finset.mem_union, Finset.mem_insert, List.toFinset_cons]
    tauto

theorem Ngrams.keySet_BatchAdd (n : Ngrams) (o : List String) :
    (n.BatchAdd o).keySet = n.keySet ∪ o.toFinset :=
  Ngrams.keySet_foldl_Add o n

theorem Ngrams.keySet_foldl_filter_Add (p : String → Bool) (l : List String) :
    ∀ n : Ngrams, (l.foldl (fun acc k => if p k then acc.Add k else acc) n).keySet =
      n.keySet ∪ (l.filter p).toFinset := by
  induction l with
  | nil => intro n; simp
  | cons a l ih =>
    intro n
    rw [List.foldl_cons, ih]
    by_cases h : p a
    · rw [if_pos h, Ngrams.keySet_Add, List.filter_cons_of_pos h]
      ext k
      simp only [Finset.mem_union, Finset.mem_insert, List.toFinset_cons]
      tauto
    · rw [if_neg h, List.filter_cons_of_neg h]

theorem Ngrams.keySet_Intersection (n o : Ngrams) :
    (n.Intersection o).keySet = n.keySet ∩ o.keySet := by
  unfold Ngrams.Intersection
  rw [Ngrams.keySet_foldl_filter_Add (fun k => (o.ngrams.lookup k).isSome), keySet_NewNgrams]
  ext k
  simp only [Finset.empty_union, List.mem_toFinset, List.mem_filter, Finset.mem_inter,
    AList.lookup_isSome, Ngrams.keySet, AList.mem_keys]

theorem Ngrams.keySet_Union (n : Ngrams) (others : List Ngrams) (k : String) :
    k ∈ (n.Union others).keySet ↔ k ∈ n.keySet ∨ ∃ o ∈ others, k ∈ o.keySet := by
  unfold Ngrams.Union
  simp only
  generalize hu : n.ngrams.keys.foldl (fun union k => union.Add k) (NewNgrams n.exclusive) = u
  have hu' : u.keySet = n.keySet := by
    rw [← hu, Ngrams.keySet_foldl_Add, keySet_NewNgrams]
    simp [Ngrams.keySet]
  rw [← hu']
  clear hu hu'
  induction others generalizing u with
  | nil => simp
  | cons o others ih =>
    rw [List.foldl_cons]
    refine (ih _).trans ?_
    rw [Ngrams.keySet_foldl_Add]
    simp only [Finset.mem_union, List.mem_cons, exists_eq_or_imp, Ngrams.keySet]
    tauto

theorem Ngrams.keySet_Union_single (n o : Ngrams) :
    (n.Union [o]).keySet = n.keySet ∪ o.keySet := by
  ext k
  rw [Ngrams.keySet_Union]
  simp

theorem keySet_reconLcs (x y : List String) (e : Bool) :
    (reconLcs x y e).keySet = (_recon x y x.length y.length).toFinset := by
  unfold reconLcs
  simp only
  rw [Ngrams.keySet_foldl_Add, keySet_NewNgrams, Finset.empty_union]

/-! ## Reconstruction wrapped as a multiset -/

theorem toFinset_card_eq_length_iff (l : List String) :
    l.toFinset.card = l.length ↔ l.Nodup :=
  Multiset.toFinset_card_eq_card_iff_nodup (m := (l : Multiset String))

theorem reconLcs_Len (x y : List String) (e : Bool) :
    (reconLcs x y e).Len = (_recon x y x.length y.length).toFinset.card := by
  rw [Ngrams.Len_eq_card, keySet_reconLcs]

theorem recon_length (x y : List String) :
    (_recon x y x.length y.length).length = lenLcs x y :=
  (reconAux_spec x y (x.length + y.length) x.length y.length (le_refl _) (le_refl _)
    (le_refl _)).2.2

/-- C3, as stated, fails: for `x = y = ["a", "a"]` the multiset returned by
`reconLcs` has one key in either mode, while `lenLcs` is `2`. -/
theorem reconLcs_Len_ne_lenLcs :
    ["a", "a"] ≠ ([] : List String) ∧
      lenLcs ["a", "a"] ["a", "a"] = 2 ∧
      (reconLcs ["a", "a"] ["a", "a"] true).Len = 1 ∧
      (reconLcs ["a", "a"] ["a", "a"] false).Len = 1 ∧
      (reconLcs ["a", "a"] ["a", "a"] true).Len ≠ lenLcs ["a", "a"] ["a", "a"] ∧
      (reconLcs ["a", "a"] ["a", "a"] false).Len ≠ lenLcs ["a", "a"] ["a", "a"] := by
  decide

/-- C3, amended. The size of the multiset returned by `reconLcs(x, y, exclusive)`
is the number of distinct tokens of the backtracked list `_recon(len(x), len(y))`;
it never exceeds `lenLcs(x, y)`, and equals it exactly when that list has no
repeated token. -/
theorem reconLcs_Len_distinct (x y : List String) (exclusive : Bool) :
    (reconLcs x y exclusive).Len = (_recon x y x.length y.length).dedup.length ∧
      (reconLcs x y exclusive).Len ≤ lenLcs x y ∧
      ((reconLcs x y exclusive).Len = lenLcs x y ↔
        (_recon x y x.length y.length).Nodup) := by
  refine ⟨?_, ?_, ?_⟩
  · rw [reconLcs_Len, List.card_toFinset]
  · rw [reconLcs_Len, ← recon_length]
    exact List.toFinset_card_le _
  · rw [reconLcs_Len, ← recon_length]
    exact toFinset_card_eq_length_iff _

/-- The amended C3 at `x = ["a", "b", "a"]`, `y = ["a", "a"]`, inclusive mode. -/
theorem reconLcs_Len_distinct_witness :
    (reconLcs ["a", "b", "a"] ["a", "a"] false).Len =
        (_recon ["a", "b", "a"] ["a", "a"] 3 2).dedup.length ∧
      (reconLcs ["a", "b", "a"] ["a", "a"] false).Len ≤ lenLcs ["a", "b", "a"] ["a", "a"] ∧
      ((reconLcs ["a", "b", "a"] ["a", "a"] false).Len = lenLcs ["a", "b", "a"] ["a", "a"] ↔
        (_recon ["a", "b", "a"] ["a", "a"] 3 2).Nodup) :=
  reconLcs_Len_distinct ["a", "b", "a"] ["a", "a"] false

/-! ## Tokenisation, the union-LCS accumulator and the scoring calls -/

theorem splitAux_ne_nil : ∀ (cs cur : List Char), splitAux cs cur ≠ [] := by
  intro cs
  induction cs with
  | nil => intro cur; simp [splitAux]
  | cons c cs ih =>
    intro cur
    unfold splitAux
    split_ifs
    · simp
    · exact ih _

theorem Split_ne_nil (s : String) : Split s ≠ [] :=
  splitAux_ne_nil _ _

theorem mem_foldl_Split (w : String) (S : List String) :
    ∀ acc : List String,
      w ∈ S.foldl (fun words sentence => words ++ Split sentence) acc ↔
        w ∈ acc ∨ ∃ s ∈ S, w ∈ Split s := by
  induction S with
  | nil => intro acc; simp
  | cons s S ih =>
    intro acc
    rw [List.foldl_cons]
    refine (ih _).trans ?_
    simp only [List.mem_append, List.mem_cons, exists_eq_or_imp]
    tauto

theorem mem_splitIntoWords (w : String) (S : List String) :
    w ∈ splitIntoWords S ↔ ∃ s ∈ S, w ∈ Split s := by
  unfold splitIntoWords
  rw [mem_foldl_Split]
  simp

theorem mem_tokenSet (w : String) (S : List String) :
    w ∈ tokenSet S ↔ ∃ s ∈ S, w ∈ Split s := by
  rw [tokenSet, List.mem_toFinset, mem_splitIntoWords]

theorem tokenSet_card_pos (S : List String) (h : S ≠ []) : 0 < (tokenSet S).card := by
  obtain ⟨s, S', rfl⟩ := List.exists_cons_of_ne_nil h
  obtain ⟨w, W, hw⟩ := List.exists_cons_of_ne_nil (Split_ne_nil s)
  apply Finset.card_pos.mpr
  exact ⟨w, (mem_tokenSet w _).mpr ⟨s, by simp, by simp [hw]⟩⟩

theorem tokenSet_perm {S S' : List String} (h : S' ~ S) : tokenSet S' = tokenSet S := by
  ext w
  simp only [mem_tokenSet, h.mem_iff]

theorem BatchAdd_Len (e : Bool) (S : List String) :
    ((NewNgrams e).BatchAdd (splitIntoWords S)).Len = (tokenSet S).card := by
  rw [Ngrams.Len_eq_card, Ngrams.keySet_BatchAdd, keySet_NewNgrams, Finset.empty_union]
  rfl

theorem keySet_unionFold (H : List String) (r : String) (e : Bool) :
    ∀ prev : Ngrams, (unionFold H r prev e).keySet = prev.keySet ∪ coveredBy H r e := by
  unfold unionFold coveredBy
  induction H with
  | nil => intro prev; simp
  | cons h H ih =>
    intro prev
    rw [List.foldl_cons, ih, Ngrams.keySet_Union_single]
    ext k
    simp only [Finset.mem_union, Finset.mem_biUnion, List.toFinset_cons, Finset.mem_insert,
      exists_eq_or_imp]
    tauto

theorem unionLcs_ok (H : List String) (r : String) (prev : Ngrams) (e : Bool)
    (hH : H ≠ []) :
    unionLcs H r (some prev) e =
      Except.ok (((unionFold H r prev e).Len : Int) - (prev.Len : Int), unionFold H r prev e) := by
  have hlen : ¬ H.length = 0 := by simpa using hH
  unfold unionLcs
  simp only [if_neg hlen]
  rfl

theorem unionLcsSum_ok (H : List String) (e : Bool) (hH : H ≠ []) (R : List String) :
    ∀ (s : Int) (U : Ngrams), ∃ U' : Ngrams,
      R.foldlM
          (fun (state : Int × Ngrams) refS =>
            match unionLcs H refS (some state.2) e with
            | Except.error err => Except.error err
            | Except.ok (lcsCount, newUnion) => Except.ok (state.1 + lcsCount, newUnion))
          (s, U) =
        (Except.ok (s + ((U'.Len : Int) - (U.Len : Int)), U') : Except String (Int × Ngrams)) ∧
      U'.keySet = U.keySet ∪ unionLcsSet H R e := by
  induction R with
  | nil =>
    intro s U
    refine ⟨U, ?_, ?_⟩
    · simp [pure, Except.pure]
    · simp [unionLcsSet]
  | cons r R ih =>
    intro s U
    obtain ⟨U', h1, h2⟩ :=
      ih (s + (((unionFold H r U e).Len : Int) - (U.Len : Int))) (unionFold H r U e)
    refine ⟨U', ?_, ?_⟩
    · rw [List.foldlM_cons]
      simp only [unionLcs_ok H r U e hH, bind, Except.bind]
      rw [h1]
      congr 2
      omega
    · rw [h2, keySet_unionFold]
      ext k
      simp only [unionLcsSet, Finset.mem_union, Finset.mem_biUnion, List.toFinset_cons,
        Finset.mem_insert, exists_eq_or_imp]
      tauto

theorem unionLcsSum_spec (H R : List String) (e : Bool) (hH : H ≠ []) :
    ∃ U : Ngrams, unionLcsSum H R e = Except.ok (((unionLcsSet H R e).card : Int), U) ∧
      U.keySet = unionLcsSet H R e := by
  obtain ⟨U, h1, h2⟩ := unionLcsSum_ok H e hH R 0 (NewNgrams e)
  rw [keySet_NewNgrams, Finset.empty_union] at h2
  refine ⟨U, ?_, h2⟩
  unfold unionLcsSum
  rw [h1, Ngrams.Len_eq_card, Ngrams.Len_eq_card, h2, keySet_NewNgrams]
  simp

theorem rougeLSummaryLevel_ok (H R : List String) (raw e : Bool) (hH : H ≠ [])
    (hR : R ≠ []) :
    rougeLSummaryLevel H R raw e =
      Except.ok (summaryStats (tokenSet H).card (tokenSet R).card
        ((unionLcsSet H R e).card : Int) raw) := by
  have hlen : ¬ (H.length = 0 ∨ R.length = 0) := by simpa using ⟨hH, hR⟩
  obtain ⟨U, hU, _⟩ := unionLcsSum_spec H R e hH
  unfold rougeLSummaryLevel
  simp only [if_neg hlen, hU, BatchAdd_Len]
  unfold summaryStats
  cases raw <;> rfl

theorem unionLcsSet_perm (H : List String) {R R' : List String} (e : Bool) (h : R' ~ R) :
    unionLcsSet H R' e = unionLcsSet H R e := by
  unfold unionLcsSet
  rw [List.toFinset_eq_of_perm _ _ h]

theorem StatMap.set_apply (m : StatMap) (k : String) (v : ℚ) (k' : String) :
    (m.set k v) k' = if k' = k then some v else m k' := rfl

theorem StatMap.empty_apply (k : String) : StatMap.empty k = none := rfl

theorem summaryStats_scored (n m : Nat) (llcs : Int) (hn : n ≠ 0) (hm : m ≠ 0) :
    summaryStats n m llcs false = calculateRougeN (n : Int) (m : Int) llcs := by
  have hn' : ¬ ((n : Int) = 0) := by exact_mod_cast hn
  have hm' : ¬ ((m : Int) = 0) := by exact_mod_cast hm
  funext k
  unfold summaryStats calculateRougeN
  simp only [if_neg hn', if_neg hm', StatMap.get, Int.cast_natCast]
  by_cases hr : k = "r"
  · subst hr
    simp [StatMap.set_apply, StatMap.empty_apply]
  · by_cases hp : k = "p"
    · subst hp
      simp [StatMap.set_apply, StatMap.empty_apply]
    · by_cases hf : k = "f"
      · subst hf
        simp [StatMap.set_apply, StatMap.empty_apply]
      · simp [StatMap.set_apply, StatMap.empty_apply, hr, hp, hf]

theorem keySet_getNgrams (n : Nat) (text : List String) (e : Bool) :
    (getNgrams n text e).keySet = (ngramKeys n text).toFinset := by
  have h := Ngrams.keySet_foldl_Add (ngramKeys n text) (NewNgrams e)
  unfold ngramKeys at h
  rw [List.foldl_map, keySet_NewNgrams, Finset.empty_union] at h
  exact h

theorem getWordNgrams_Len (n : Nat) (S : List String) (e : Bool) :
    (getWordNgrams n S e).Len = (ngramSet n S).card := by
  rw [Ngrams.Len_eq_card]
  unfold getWordNgrams ngramSet
  simp only
  rw [keySet_getNgrams]

theorem getWordNgrams_Intersection_Len (n : Nat) (S T : List String) (e : Bool) :
    ((getWordNgrams n S e).Intersection (getWordNgrams n T e)).Len =
      (ngramSet n S ∩ ngramSet n T).card := by
  rw [Ngrams.Len_eq_card, Ngrams.keySet_Intersection]
  unfold getWordNgrams ngramSet
  simp only
  rw [keySet_getNgrams, keySet_getNgrams]

theorem rougeN_ok (H R : List String) (n : Nat) (raw e : Bool) (hH : H ≠ []) (hR : R ≠ []) :
    rougeN H R n raw e =
      Except.ok
        (if raw then
          ((StatMap.empty.set "hyp" ((ngramSet n H).card : ℚ)).set "ref"
            ((ngramSet n R).card : ℚ)).set "overlap" ((ngramSet n H ∩ ngramSet n R).card : ℚ)
        else
          calculateRougeN ((ngramSet n H).card : Int) ((ngramSet n R).card : Int)
            ((ngramSet n H ∩ ngramSet n R).card : Int)) := by
  have h1 : ¬ H.length = 0 := by simpa using hH
  have h2 : ¬ R.length = 0 := by simpa using hR
  unfold rougeN
  simp only [if_neg h1, if_neg h2, getWordNgrams_Len, getWordNgrams_Intersection_Len]
  cases raw <;> rfl

theorem calculateRougeN_p (ev rf ov : Int) :
    calculateRougeN ev rf ov "p" = some (if ev = 0 then 0 else (ov : ℚ) / (ev : ℚ)) := by
  unfold calculateRougeN
  split_ifs <;> simp [StatMap.set_apply, StatMap.empty_apply]

theorem calculateRougeN_r (ev rf ov : Int) :
    calculateRougeN ev rf ov "r" = some (if rf = 0 then 0 else (ov : ℚ) / (rf : ℚ)) := by
  unfold calculateRougeN
  split_ifs <;> simp [StatMap.set_apply, StatMap.empty_apply]

theorem calculateRougeN_f (ev rf ov : Int) :
    calculateRougeN ev rf ov "f" =
      some (2 * (((if ev = 0 then 0 else (ov : ℚ) / (ev : ℚ)) *
          (if rf = 0 then 0 else (ov : ℚ) / (rf : ℚ))) /
        ((if ev = 0 then 0 else (ov : ℚ) / (ev : ℚ)) +
          (if rf = 0 then 0 else (ov : ℚ) / (rf : ℚ)) + epsilon))) := by
  unfold calculateRougeN
  split_ifs <;> simp [StatMap.set_apply, StatMap.empty_apply, StatMap.get]

theorem calculateRougeN_other (ev rf ov : Int) (k : String) (hp : k ≠ "p") (hr : k ≠ "r")
    (hf : k ≠ "f") : calculateRougeN ev rf ov k = none := by
  unfold calculateRougeN
  split_ifs <;> simp [StatMap.set_apply, StatMap.empty_apply, hp, hr, hf]

theorem epsilon_pos : 0 < epsilon := by
  unfold epsilon
  norm_num

/-! ## Summary-level ROUGE-L -/

/-- C4. With non-empty sentence lists the loop of `rougeLSummaryLevel` succeeds;
the sum `llcs` of the increments returned by `unionLcs` is the size of the final
running union, whose keys are exactly the tokens lying in `reconLcs(words(r),
words(h))` for some reference sentence `r` and hypothesis sentence `h`, and it is
the overlap the raw result reports.  From any running union, one call to
`unionLcs` returns a non-negative increment, the growth in size, and keeps every
key. -/
theorem unionLcs_sum_eq_union_size (H R : List String) (e : Bool) (hH : H ≠ [])
    (hR : R ≠ []) :
    ∃ (llcs : Int) (U : Ngrams),
      unionLcsSum H R e = Except.ok (llcs, U) ∧
      llcs = (U.Len : Int) ∧
      U.keySet = unionLcsSet H R e ∧
      llcs = ((unionLcsSet H R e).card : Int) ∧
      stat (rougeLSummaryLevel H R true e) "overlap" = some (llcs : ℚ) ∧
      ∀ (r : String) (prev : Ngrams), ∃ (inc : Int) (next : Ngrams),
        unionLcs H r (some prev) e = Except.ok (inc, next) ∧
        inc = (next.Len : Int) - (prev.Len : Int) ∧ 0 ≤ inc ∧
        prev.keySet ⊆ next.keySet := by
  obtain ⟨U, hU, hkeys⟩ := unionLcsSum_spec H R e hH
  refine ⟨_, U, hU, ?_, hkeys, rfl, ?_, ?_⟩
  · rw [Ngrams.Len_eq_card, hkeys]
  · rw [rougeLSummaryLevel_ok H R true e hH hR]
    simp [stat, summaryStats, StatMap.set_apply]
  · intro r prev
    have hsub : prev.keySet ⊆ (unionFold H r prev e).keySet := by
      rw [keySet_unionFold]
      exact Finset.subset_union_left
    refine ⟨_, _, unionLcs_ok H r prev e hH, rfl, ?_, hsub⟩
    have := Finset.card_le_card hsub
    rw [Ngrams.Len_eq_card, Ngrams.Len_eq_card]
    omega

/-- C4 at hypothesis `["a b c", "d e"]`, reference `["a b d", "e e"]`. -/
theorem unionLcs_sum_eq_union_size_witness :
    (["a b c", "d e"] ≠ ([] : List String) ∧ ["a b d", "e e"] ≠ ([] : List String)) ∧
      ∃ (llcs : Int) (U : Ngrams),
        unionLcsSum ["a b c", "d e"] ["a b d", "e e"] false = Except.ok (llcs, U) ∧
        llcs = (U.Len : Int) ∧
        U.keySet = unionLcsSet ["a b c", "d e"] ["a b d", "e e"] false ∧
        llcs = ((unionLcsSet ["a b c", "d e"] ["a b d", "e e"] false).card : Int) ∧
        stat (rougeLSummaryLevel ["a b c", "d e"] ["a b d", "e e"] true false) "overlap" =
          some (llcs : ℚ) ∧
        ∀ (r : String) (prev : Ngrams), ∃ (inc : Int) (next : Ngrams),
          unionLcs ["a b c", "d e"] r (some prev) false = Except.ok (inc, next) ∧
          inc = (next.Len : Int) - (prev.Len : Int) ∧ 0 ≤ inc ∧
          prev.keySet ⊆ next.keySet :=
  ⟨⟨by decide, by decide⟩,
    unionLcs_sum_eq_union_size ["a b c", "d e"] ["a b d", "e e"] false (by decide) (by decide)⟩

/-- C5. Processing the reference sentences in another order changes neither the
overlap count `llcs` nor the returned stat mapping. -/
theorem rougeLSummaryLevel_perm (H R R' : List String) (raw e : Bool) (hH : H ≠ [])
    (hR : R ≠ []) (hperm : R' ~ R) :
    (∃ llcs : Int, (unionLcsSum H R' e).map Prod.fst = Except.ok llcs ∧
        (unionLcsSum H R e).map Prod.fst = Except.ok llcs) ∧
      rougeLSummaryLevel H R' raw e = rougeLSummaryLevel H R raw e ∧
      ∃ m : StatMap, rougeLSummaryLevel H R raw e = Except.ok m := by
  have hR' : R' ≠ [] := fun h => hR (by simpa [h] using hperm)
  obtain ⟨U, hU, _⟩ := unionLcsSum_spec H R e hH
  obtain ⟨U', hU', _⟩ := unionLcsSum_spec H R' e hH
  refine ⟨⟨((unionLcsSet H R e).card : Int), ?_, ?_⟩, ?_, ?_⟩
  · rw [hU', unionLcsSet_perm H e hperm]
    rfl
  · rw [hU]
    rfl
  · rw [rougeLSummaryLevel_ok H R' raw e hH hR', rougeLSummaryLevel_ok H R raw e hH hR,
      unionLcsSet_perm H e hperm, tokenSet_perm hperm]
  · exact ⟨_, rougeLSummaryLevel_ok H R raw e hH hR⟩

/-- C5 at hypothesis `["a b c"]`, references `["a b d", "c"]` and `["c", "a b d"]`. -/
theorem rougeLSummaryLevel_perm_witness :
    (["a b c"] ≠ ([] : List String) ∧ ["a b d", "c"] ≠ ([] : List String) ∧
        ["c", "a b d"] ~ ["a b d", "c"]) ∧
      (∃ llcs : Int, (unionLcsSum ["a b c"] ["c", "a b d"] true).map Prod.fst = Except.ok llcs ∧
        (unionLcsSum ["a b c"] ["a b d", "c"] true).map Prod.fst = Except.ok llcs) ∧
      rougeLSummaryLevel ["a b c"] ["c", "a b d"] false true =
        rougeLSummaryLevel ["a b c"] ["a b d", "c"] false true ∧
      ∃ m : StatMap, rougeLSummaryLevel ["a b c"] ["a b d", "c"] false true = Except.ok m :=
  ⟨⟨by decide, by decide, List.Perm.swap "a b d" "c" []⟩,
    rougeLSummaryLevel_perm ["a b c"] ["a b d", "c"] ["c", "a b d"] false true
      (by decide) (by decide) (List.Perm.swap "a b d" "c" [])⟩

/-! ## ROUGE-N and the scoring formulas -/

/-- C6. For `n ≥ 1` and non-empty sentence lists, `rougeN` in raw mode returns
`hyp` = the number of distinct `n`-gram keys of the flattened hypothesis, `ref` =
that of the flattened reference and `overlap` = the number of keys occurring in
both; in scored mode it returns `calculateRougeN(hyp, ref, overlap)`.  For
hypothesis `["a b c"]`, reference `["a b d"]` and `n = 1` this gives overlap `2`,
hyp `3`, ref `3` and precision = recall = `2/3`. -/
theorem rougeN_counts (H R : List String) (n : Nat) (e : Bool) (_hn : 1 ≤ n) (hH : H ≠ [])
    (hR : R ≠ []) :
    rougeN H R n true e =
        Except.ok (((StatMap.empty.set "hyp" ((ngramSet n H).card : ℚ)).set "ref"
          ((ngramSet n R).card : ℚ)).set "overlap" ((ngramSet n H ∩ ngramSet n R).card : ℚ)) ∧
      rougeN H R n false e =
        Except.ok (calculateRougeN ((ngramSet n H).card : Int) ((ngramSet n R).card : Int)
          ((ngramSet n H ∩ ngramSet n R).card : Int)) ∧
      (stat (rougeN ["a b c"] ["a b d"] 1 true e) "overlap" = some 2 ∧
        stat (rougeN ["a b c"] ["a b d"] 1 true e) "hyp" = some 3 ∧
        stat (rougeN ["a b c"] ["a b d"] 1 true e) "ref" = some 3 ∧
        stat (rougeN ["a b c"] ["a b d"] 1 false e) "p" = some (2 / 3) ∧
        stat (rougeN ["a b c"] ["a b d"] 1 false e) "r" = some (2 / 3)) := by
  refine ⟨rougeN_ok H R n true e hH hR, rougeN_ok H R n false e hH hR, ?_⟩
  have hA : (ngramSet 1 ["a b c"]).card = 3 := by decide
  have hB : (ngramSet 1 ["a b d"]).card = 3 := by decide
  have hAB : (ngramSet 1 ["a b c"] ∩ ngramSet 1 ["a b d"]).card = 2 := by decide
  rw [rougeN_ok ["a b c"] ["a b d"] 1 true e (by decide) (by decide),
    rougeN_ok ["a b c"] ["a b d"] 1 false e (by decide) (by decide), hA, hB, hAB]
  simp only [stat, if_true, Bool.false_eq_true, if_false, calculateRougeN_p, calculateRougeN_r]
  refine ⟨?_, ?_, ?_, ?_, ?_⟩ <;> simp [StatMap.set_apply, StatMap.empty_apply]

/-- C6 at hypothesis `["the cat sat", "on the mat"]`, reference `["the cat"]`,
bigrams, exclusive mode. -/
theorem rougeN_counts_witness :
    ((1 ≤ 2) ∧ ["the cat sat", "on the mat"] ≠ ([] : List String) ∧
        ["the cat"] ≠ ([] : List String)) ∧
      rougeN ["the cat sat", "on the mat"] ["the cat"] 2 true true =
        Except.ok (((StatMap.empty.set "hyp"
            ((ngramSet 2 ["the cat sat", "on the mat"]).card : ℚ)).set "ref"
            ((ngramSet 2 ["the cat"]).card : ℚ)).set "overlap"
            ((ngramSet 2 ["the cat sat", "on the mat"] ∩ ngramSet 2 ["the cat"]).card : ℚ)) ∧
      rougeN ["the cat sat", "on the mat"] ["the cat"] 2 false true =
        Except.ok (calculateRougeN ((ngramSet 2 ["the cat sat", "on the mat"]).card : Int)
          ((ngramSet 2 ["the cat"]).card : Int)
          ((ngramSet 2 ["the cat sat", "on the mat"] ∩ ngramSet 2 ["the cat"]).card : Int)) ∧
      (stat (rougeN ["a b c"] ["a b d"] 1 true true) "overlap" = some 2 ∧
        stat (rougeN ["a b c"] ["a b d"] 1 true true) "hyp" = some 3 ∧
        stat (rougeN ["a b c"] ["a b d"] 1 true true) "ref" = some 3 ∧
        stat (rougeN ["a b c"] ["a b d"] 1 false true) "p" = some (2 / 3) ∧
        stat (rougeN ["a b c"] ["a b d"] 1 false true) "r" = some (2 / 3)) :=
  ⟨⟨by decide, by decide, by decide⟩,
    rougeN_counts ["the cat sat", "on the mat"] ["the cat"] 2 true (by decide) (by decide)
      (by decide)⟩

/-- C7. For non-empty sentence lists, with `n` and `m` the numbers of distinct
tokens of the flattened hypothesis and reference (both at least `1`) and `llcs`
the union-LCS overlap count, the scored result of `rougeLSummaryLevel` is
`calculateRougeN(n, m, llcs)` and the raw result is `hyp = n`, `ref = m`,
`overlap = llcs`.  For hypothesis `["a b c"]` and reference `["a b d"]`,
`llcs = 2` and `m = n = 3`. -/
theorem rougeLSummaryLevel_eq_calculateRougeN (H R : List String) (e : Bool) (hH : H ≠ [])
    (hR : R ≠ []) :
    ∃ (llcs : Int) (U : Ngrams),
      unionLcsSum H R e = Except.ok (llcs, U) ∧
      1 ≤ (tokenSet H).card ∧ 1 ≤ (tokenSet R).card ∧
      rougeLSummaryLevel H R false e =
        Except.ok (calculateRougeN ((tokenSet H).card : Int) ((tokenSet R).card : Int) llcs) ∧
      rougeLSummaryLevel H R true e =
        Except.ok (((StatMap.empty.set "hyp" ((tokenSet H).card : ℚ)).set "ref"
          ((tokenSet R).card : ℚ)).set "overlap" (llcs : ℚ)) ∧
      ((tokenSet ["a b c"]).card = 3 ∧ (tokenSet ["a b d"]).card = 3 ∧
        (unionLcsSum ["a b c"] ["a b d"] e).map Prod.fst = Except.ok 2) := by
  obtain ⟨U, hU, _⟩ := unionLcsSum_spec H R e hH
  have hn := tokenSet_card_pos H hH
  have hm := tokenSet_card_pos R hR
  refine ⟨_, U, hU, hn, hm, ?_, ?_, by decide, by decide, ?_⟩
  · rw [rougeLSummaryLevel_ok H R false e hH hR,
      summaryStats_scored _ _ _ (by omega) (by omega)]
  · rw [rougeLSummaryLevel_ok H R true e hH hR]
    rfl
  · cases e <;> rfl

/-- C7 at hypothesis `["a b c"]`, reference `["a b d"]`, exclusive mode. -/
theorem rougeLSummaryLevel_eq_calculateRougeN_witness :
    (["a b c"] ≠ ([] : List String) ∧ ["a b d"] ≠ ([] : List String)) ∧
      ∃ (llcs : Int) (U : Ngrams),
        unionLcsSum ["a b c"] ["a b d"] true = Except.ok (llcs, U) ∧
        1 ≤ (tokenSet ["a b c"]).card ∧ 1 ≤ (tokenSet ["a b d"]).card ∧
        rougeLSummaryLevel ["a b c"] ["a b d"] false true =
          Except.ok (calculateRougeN ((tokenSet ["a b c"]).card : Int)
            ((tokenSet ["a b d"]).card : Int) llcs) ∧
        rougeLSummaryLevel ["a b c"] ["a b d"] true true =
          Except.ok (((StatMap.empty.set "hyp" ((tokenSet ["a b c"]).card : ℚ)).set "ref"
            ((tokenSet ["a b d"]).card : ℚ)).set "overlap" (llcs : ℚ)) ∧
        ((tokenSet ["a b c"]).card = 3 ∧ (tokenSet ["a b d"]).card = 3 ∧
          (unionLcsSum ["a b c"] ["a b d"] true).map Prod.fst = Except.ok 2) :=
  ⟨⟨by decide, by decide⟩,
    rougeLSummaryLevel_eq_calculateRougeN ["a b c"] ["a b d"] true (by decide) (by decide)⟩

/-- C8. In exact rational arithmetic `calculateRougeN` stores
`p = overlappingCount / evaluatedCount` (`0` when `evaluatedCount = 0`),
`r = overlappingCount / referenceCount` (`0` when `referenceCount = 0`) and
`f = 2·p·r / (p + r + 1e-8)`, and no other key; `calculateRougeN(0, N, 0)` and
`calculateRougeN(N, 0, 0)` with `N ≥ 1` store `p = r = f = 0`. -/
theorem calculateRougeN_formula (ev rf ov N : Int) (hN : 1 ≤ N) :
    calculateRougeN ev rf ov "p" = some (if ev = 0 then 0 else (ov : ℚ) / (ev : ℚ)) ∧
      calculateRougeN ev rf ov "r" = some (if rf = 0 then 0 else (ov : ℚ) / (rf : ℚ)) ∧
      calculateRougeN ev rf ov "f" =
        some (2 * (if ev = 0 then 0 else (ov : ℚ) / (ev : ℚ)) *
            (if rf = 0 then 0 else (ov : ℚ) / (rf : ℚ)) /
          ((if ev = 0 then 0 else (ov : ℚ) / (ev : ℚ)) +
            (if rf = 0 then 0 else (ov : ℚ) / (rf : ℚ)) + 1 / 10 ^ 8)) ∧
      (∀ k : String, calculateRougeN ev rf ov k ≠ none → k = "p" ∨ k = "r" ∨ k = "f") ∧
      (calculateRougeN 0 N 0 "p" = some 0 ∧ calculateRougeN 0 N 0 "r" = some 0 ∧
        calculateRougeN 0 N 0 "f" = some 0) ∧
      (calculateRougeN N 0 0 "p" = some 0 ∧ calculateRougeN N 0 0 "r" = some 0 ∧
        calculateRougeN N 0 0 "f" = some 0) := by
  have hN0 : N ≠ 0 := by omega
  refine ⟨calculateRougeN_p ev rf ov, calculateRougeN_r ev rf ov, ?_, ?_, ?_, ?_⟩
  · rw [calculateRougeN_f, epsilon]
    congr 1
    ring
  · intro k hk
    by_contra hcon
    push_neg at hcon
    exact hk (calculateRougeN_other ev rf ov k hcon.1 hcon.2.1 hcon.2.2)
  · rw [calculateRougeN_p, calculateRougeN_r, calculateRougeN_f]
    simp
  · rw [calculateRougeN_p, calculateRougeN_r, calculateRougeN_f]
    simp

/-- C8 at counts `(3, 4, 2)` and `N = 5`. -/
theorem calculateRougeN_formula_witness :
    (1 : Int) ≤ 5 ∧
      (calculateRougeN 3 4 2 "p" = some (if (3 : Int) = 0 then 0 else ((2 : Int) : ℚ) / ((3 : Int) : ℚ)) ∧
      calculateRougeN 3 4 2 "r" = some (if (4 : Int) = 0 then 0 else ((2 : Int) : ℚ) / ((4 : Int) : ℚ)) ∧
      calculateRougeN 3 4 2 "f" =
        some (2 * (if (3 : Int) = 0 then 0 else ((2 : Int) : ℚ) / ((3 : Int) : ℚ)) *
            (if (4 : Int) = 0 then 0 else ((2 : Int) : ℚ) / ((4 : Int) : ℚ)) /
          ((if (3 : Int) = 0 then 0 else ((2 : Int) : ℚ) / ((3 : Int) : ℚ)) +
            (if (4 : Int) = 0 then 0 else ((2 : Int) : ℚ) / ((4 : Int) : ℚ)) + 1 / 10 ^ 8)) ∧
      (∀ k : String, calculateRougeN 3 4 2 k ≠ none → k = "p" ∨ k = "r" ∨ k = "f") ∧
      (calculateRougeN 0 5 0 "p" = some 0 ∧ calculateRougeN 0 5 0 "r" = some 0 ∧
        calculateRougeN 0 5 0 "f" = some 0) ∧
      (calculateRougeN 5 0 0 "p" = some 0 ∧ calculateRougeN 5 0 0 "r" = some 0 ∧
        calculateRougeN 5 0 0 "f" = some 0)) :=
  ⟨by decide, calculateRougeN_formula 3 4 2 5 (by decide)⟩

/-- C9. For non-negative counts the stored `p` and `r` are non-negative, the F1
denominator `p + r + 1e-8` is strictly positive, `f` is the quotient
`2·(p·r) / (p + r + 1e-8)` by that non-zero denominator, and `f = 0` when
`p = 0` and `r = 0`. -/
theorem calculateRougeN_denominator_pos (ev rf ov : Int) (hev : 0 ≤ ev) (hrf : 0 ≤ rf)
    (hov : 0 ≤ ov) :
    0 ≤ (calculateRougeN ev rf ov).get "p" ∧
      0 ≤ (calculateRougeN ev rf ov).get "r" ∧
      0 < (calculateRougeN ev rf ov).get "p" + (calculateRougeN ev rf ov).get "r" + epsilon ∧
      calculateRougeN ev rf ov "f" =
        some (2 * (((calculateRougeN ev rf ov).get "p" * (calculateRougeN ev rf ov).get "r") /
          ((calculateRougeN ev rf ov).get "p" + (calculateRougeN ev rf ov).get "r" + epsilon))) ∧
      ((calculateRougeN ev rf ov).get "p" = 0 → (calculateRougeN ev rf ov).get "r" = 0 →
        (calculateRougeN ev rf ov).get "f" = 0) := by
  have hp : 0 ≤ (calculateRougeN ev rf ov).get "p" := by
    rw [StatMap.get, calculateRougeN_p]
    simp only [Option.getD_some]
    split_ifs
    · exact le_refl _
    · exact div_nonneg (by exact_mod_cast hov) (by exact_mod_cast hev)
  have hr : 0 ≤ (calculateRougeN ev rf ov).get "r" := by
    rw [StatMap.get, calculateRougeN_r]
    simp only [Option.getD_some]
    split_ifs
    · exact le_refl _
    · exact div_nonneg (by exact_mod_cast hov) (by exact_mod_cast hrf)
  have hf : calculateRougeN ev rf ov "f" =
      some (2 * (((calculateRougeN ev rf ov).get "p" * (calculateRougeN ev rf ov).get "r") /
        ((calculateRougeN ev rf ov).get "p" + (calculateRougeN ev rf ov).get "r" + epsilon))) := by
    simp only [StatMap.get, calculateRougeN_p, calculateRougeN_r, calculateRougeN_f,
      Option.getD_some]
  refine ⟨hp, hr, ?_, hf, ?_⟩
  · have := epsilon_pos
    linarith
  · intro h1 h2
    rw [StatMap.get, hf, h1, h2]
    simp

/-- C9 at the all-zero counts. -/
theorem calculateRougeN_denominator_pos_witness :
    ((0 : Int) ≤ 0 ∧ (0 : Int) ≤ 0 ∧ (0 : Int) ≤ 0) ∧
      0 ≤ (calculateRougeN 0 0 0).get "p" ∧
      0 ≤ (calculateRougeN 0 0 0).get "r" ∧
      0 < (calculateRougeN 0 0 0).get "p" + (calculateRougeN 0 0 0).get "r" + epsilon ∧
      calculateRougeN 0 0 0 "f" =
        some (2 * (((calculateRougeN 0 0 0).get "p" * (calculateRougeN 0 0 0).get "r") /
          ((calculateRougeN 0 0 0).get "p" + (calculateRougeN 0 0 0).get "r" + epsilon))) ∧
      ((calculateRougeN 0 0 0).get "p" = 0 → (calculateRougeN 0 0 0).get "r" = 0 →
        (calculateRougeN 0 0 0).get "f" = 0) :=
  ⟨⟨le_refl _, le_refl _, le_refl _⟩,
    calculateRougeN_denominator_pos 0 0 0 (le_refl _) (le_refl _) (le_refl _)⟩

/-- C10. For `n ≥ 1`, `rougeN` fails exactly when the hypothesis or the reference
sentence list is empty, and so does `rougeLSummaryLevel`; a failing call yields
no stat mapping, any other call yields one.  With an empty hypothesis and the
reference `["a b d"]` both fail. -/
theorem scoring_fails_iff_empty (H R : List String) (n : Nat) (raw e : Bool) (_hn : 1 ≤ n) :
    ((∃ msg : String, rougeN H R n raw e = Except.error msg) ↔ (H = [] ∨ R = [])) ∧
      ((∃ m : StatMap, rougeN H R n raw e = Except.ok m) ↔ ¬ (H = [] ∨ R = [])) ∧
      ((∃ msg : String, rougeLSummaryLevel H R raw e = Except.error msg) ↔
        (H = [] ∨ R = [])) ∧
      ((∃ m : StatMap, rougeLSummaryLevel H R raw e = Except.ok m) ↔ ¬ (H = [] ∨ R = [])) ∧
      rougeN [] ["a b d"] n raw e = Except.error "Hypothesis is empty." ∧
      rougeLSummaryLevel [] ["a b d"] raw e =
        Except.error "Collections must contain at least 1 sentence." := by
  have hN : (H = [] ∨ R = []) → ∃ msg : String, rougeN H R n raw e = Except.error msg := by
    intro h
    unfold rougeN
    by_cases h1 : H = []
    · subst h1
      exact ⟨_, rfl⟩
    · have h2 : R = [] := h.resolve_left h1
      subst h2
      have : ¬ H.length = 0 := by simpa using h1
      simp only [if_neg this]
      exact ⟨_, rfl⟩
  have hL : (H = [] ∨ R = []) →
      ∃ msg : String, rougeLSummaryLevel H R raw e = Except.error msg := by
    intro h
    have : H.length = 0 ∨ R.length = 0 := by simpa using h
    unfold rougeLSummaryLevel
    rw [if_pos this]
    exact ⟨_, rfl⟩
  refine ⟨⟨?_, hN⟩, ⟨?_, ?_⟩, ⟨?_, hL⟩, ⟨?_, ?_⟩, rfl, rfl⟩
  · rintro ⟨msg, hmsg⟩
    by_contra hcon
    push_neg at hcon
    rw [rougeN_ok H R n raw e hcon.1 hcon.2] at hmsg
    exact Except.noConfusion hmsg
  · rintro ⟨m, hm⟩ hcon
    obtain ⟨msg, hmsg⟩ := hN hcon
    rw [hmsg] at hm
    exact Except.noConfusion hm
  · intro hcon
    push_neg at hcon
    exact ⟨_, rougeN_ok H R n raw e hcon.1 hcon.2⟩
  · rintro ⟨msg, hmsg⟩
    by_contra hcon
    push_neg at hcon
    rw [rougeLSummaryLevel_ok H R raw e hcon.1 hcon.2] at hmsg
    exact Except.noConfusion hmsg
  · rintro ⟨m, hm⟩ hcon
    obtain ⟨msg, hmsg⟩ := hL hcon
    rw [hmsg] at hm
    exact Except.noConfusion hm
  · intro hcon
    push_neg at hcon
    exact ⟨_, rougeLSummaryLevel_ok H R raw e hcon.1 hcon.2⟩

/-- C10 at an empty hypothesis with reference `["a b d"]`, unigrams. -/
theorem scoring_fails_iff_empty_witness :
    (1 ≤ 1) ∧
      ((∃ msg : String, rougeN [] ["a b d"] 1 false true = Except.error msg) ↔
        (([] : List String) = [] ∨ ["a b d"] = ([] : List String))) ∧
      ((∃ m : StatMap, rougeN [] ["a b d"] 1 false true = Except.ok m) ↔
        ¬ (([] : List String) = [] ∨ ["a b d"] = ([] : List String))) ∧
      ((∃ msg : String, rougeLSummaryLevel [] ["a b d"] false true = Except.error msg) ↔
        (([] : List String) = [] ∨ ["a b d"] = ([] : List String))) ∧
      ((∃ m : StatMap, rougeLSummaryLevel [] ["a b d"] false true = Except.ok m) ↔
        ¬ (([] : List String) = [] ∨ ["a b d"] = ([] : List String))) ∧
      rougeN [] ["a b d"] 1 false true = Except.error "Hypothesis is empty." ∧
      rougeLSummaryLevel [] ["a b d"] false true =
        Except.error "Collections must contain at least 1 sentence." :=
  ⟨le_refl _, scoring_fails_iff_empty [] ["a b d"] 1 false true (le_refl _)⟩

/-! ## Mode independence, overlap algebra and bounds -/

theorem unionLcsSet_exclusive (H R : List String) (e e' : Bool) :
    unionLcsSet H R e = unionLcsSet H R e' := by
  unfold unionLcsSet coveredBy
  simp only [keySet_reconLcs]

/-- C13. For `n ≥ 1` and non-empty sentence lists, in raw and in scored mode,
`rougeN` returns the same mapping with `exclusive = true` as with
`exclusive = false`, and so does `rougeLSummaryLevel`. -/
theorem exclusive_flag_unobservable (H R : List String) (n : Nat) (raw : Bool)
    (_hn : 1 ≤ n) (hH : H ≠ []) (hR : R ≠ []) :
    rougeN H R n raw true = rougeN H R n raw false ∧
      rougeLSummaryLevel H R raw true = rougeLSummaryLevel H R raw false := by
  constructor
  · rw [rougeN_ok H R n raw true hH hR, rougeN_ok H R n raw false hH hR]
  · rw [rougeLSummaryLevel_ok H R raw true hH hR, rougeLSummaryLevel_ok H R raw false hH hR,
      unionLcsSet_exclusive H R true false]

/-- C13 at hypothesis `["a a b", "c"]`, reference `["a b a"]`, bigrams, scored. -/
theorem exclusive_flag_unobservable_witness :
    (1 ≤ 2 ∧ ["a a b", "c"] ≠ ([] : List String) ∧ ["a b a"] ≠ ([] : List String)) ∧
      rougeN ["a a b", "c"] ["a b a"] 2 false true =
        rougeN ["a a b", "c"] ["a b a"] 2 false false ∧
      rougeLSummaryLevel ["a a b", "c"] ["a b a"] false true =
        rougeLSummaryLevel ["a a b", "c"] ["a b a"] false false :=
  ⟨⟨by decide, by decide, by decide⟩,
    exclusive_flag_unobservable ["a a b", "c"] ["a b a"] 2 false (by decide) (by decide)
      (by decide)⟩

/-- C14. For all n-gram multisets `a` and `b`, in either mode, the keys of
`a.Intersection(b)` are the keys present in both, so its `Len` is their number;
the overlap count is symmetric and at most `min(a.Len(), b.Len())`. -/
theorem Intersection_Len_common_keys (a b : Ngrams) :
    (∀ k : String, k ∈ (a.Intersection b).ngrams ↔ k ∈ a.ngrams ∧ k ∈ b.ngrams) ∧
      (a.Intersection b).Len = (a.keySet ∩ b.keySet).card ∧
      (a.Intersection b).Len = (b.Intersection a).Len ∧
      (a.Intersection b).Len ≤ min a.Len b.Len := by
  refine ⟨?_, ?_, ?_, ?_⟩
  · intro k
    rw [← Ngrams.mem_keySet, ← Ngrams.mem_keySet, ← Ngrams.mem_keySet,
      Ngrams.keySet_Intersection, Finset.mem_inter]
  · rw [Ngrams.Len_eq_card, Ngrams.keySet_Intersection]
  · rw [Ngrams.Len_eq_card, Ngrams.Len_eq_card, Ngrams.keySet_Intersection,
      Ngrams.keySet_Intersection, Finset.inter_comm]
  · rw [Ngrams.Len_eq_card, Ngrams.Len_eq_card, Ngrams.Len_eq_card,
      Ngrams.keySet_Intersection]
    exact le_min (Finset.card_le_card Finset.inter_subset_left)
      (Finset.card_le_card Finset.inter_subset_right)

/-- C14 at the multisets of `a b a c` (inclusive) and `b c d` (exclusive). -/
theorem Intersection_Len_common_keys_witness :
    (∀ k : String,
        k ∈ (((NewNgrams false).BatchAdd ["a", "b", "a", "c"]).Intersection
          ((NewNgrams true).BatchAdd ["b", "c", "d"])).ngrams ↔
        k ∈ ((NewNgrams false).BatchAdd ["a", "b", "a", "c"]).ngrams ∧
          k ∈ ((NewNgrams true).BatchAdd ["b", "c", "d"]).ngrams) ∧
      (((NewNgrams false).BatchAdd ["a", "b", "a", "c"]).Intersection
          ((NewNgrams true).BatchAdd ["b", "c", "d"])).Len =
        (((NewNgrams false).BatchAdd ["a", "b", "a", "c"]).keySet ∩
          ((NewNgrams true).BatchAdd ["b", "c", "d"]).keySet).card ∧
      (((NewNgrams false).BatchAdd ["a", "b", "a", "c"]).Intersection
          ((NewNgrams true).BatchAdd ["b", "c", "d"])).Len =
        (((NewNgrams true).BatchAdd ["b", "c", "d"]).Intersection
          ((NewNgrams false).BatchAdd ["a", "b", "a", "c"])).Len ∧
      (((NewNgrams false).BatchAdd ["a", "b", "a", "c"]).Intersection
          ((NewNgrams true).BatchAdd ["b", "c", "d"])).Len ≤
        min ((NewNgrams false).BatchAdd ["a", "b", "a", "c"]).Len
          ((NewNgrams true).BatchAdd ["b", "c", "d"]).Len :=
  Intersection_Len_common_keys ((NewNgrams false).BatchAdd ["a", "b", "a", "c"])
    ((NewNgrams true).BatchAdd ["b", "c", "d"])

theorem lenLcs_isLcsLength (x y : List String) : IsLcsLength x y (lenLcs x y) := by
  unfold lenLcs
  simp only
  rw [lcs_get x y _ _ (le_refl _) (le_refl _)]
  have := isLcsLength_reverse (x.take x.length) (y.take y.length)
  simpa [cellSpec] using this

theorem isLcsLength_unique {a b : List String} {k k' : Nat} (h : IsLcsLength a b k)
    (h' : IsLcsLength b a k') : k = k' := by
  obtain ⟨⟨s, hs1, hs2, hs3⟩, hmax⟩ := h
  obtain ⟨⟨s', hs1', hs2', hs3'⟩, hmax'⟩ := h'
  have h1 := hmax' s hs2 hs1
  have h2 := hmax s' hs2' hs1'
  omega

/-- C15. For all token sequences, `lenLcs(x, y) = lenLcs(y, x)` and
`lenLcs(x, y) ≤ min(len(x), len(y))`. -/
theorem lenLcs_symm_bounded (x y : List String) :
    lenLcs x y = lenLcs y x ∧ lenLcs x y ≤ min x.length y.length := by
  refine ⟨isLcsLength_unique (lenLcs_isLcsLength x y) (lenLcs_isLcsLength y x), ?_⟩
  obtain ⟨⟨s, hs1, hs2, hs3⟩, _⟩ := lenLcs_isLcsLength x y
  rw [← hs3]
  exact le_min hs1.length_le hs2.length_le

/-- C15 at `x = ["a", "b", "c", "a"]`, `y = ["c", "a", "b"]`. -/
theorem lenLcs_symm_bounded_witness :
    lenLcs ["a", "b", "c", "a"] ["c", "a", "b"] = lenLcs ["c", "a", "b"] ["a", "b", "c", "a"] ∧
      lenLcs ["a", "b", "c", "a"] ["c", "a", "b"] ≤
        min ["a", "b", "c", "a"].length ["c", "a", "b"].length :=
  lenLcs_symm_bounded ["a", "b", "c", "a"] ["c", "a", "b"]

/-- C16. For `n ≥ 1` the keys of `getNgrams(n, text, exclusive)` are exactly the
strings `text[i:i+n]` joined by single spaces, for the start indices `i` with
`i + n ≤ len(text)`; there is none when `len(text) < n`, and there are never more
than `len(text) - n + 1` of them (the count of start indices, `0` when
`len(text) < n`). -/
theorem getNgrams_keys (n : Nat) (text : List String) (exclusive : Bool) (_hn : 1 ≤ n) :
    (∀ k : String, k ∈ (getNgrams n text exclusive).ngrams ↔
        ∃ i : Nat, i + n ≤ text.length ∧ k = " ".intercalate ((text.drop i).take n)) ∧
      (text.length < n → (getNgrams n text exclusive).Len = 0) ∧
      (getNgrams n text exclusive).Len ≤ text.length + 1 - n ∧
      (n ≤ text.length →
        ((getNgrams n text exclusive).Len : Int) ≤ (text.length : Int) - (n : Int) + 1) := by
  have hlen : (getNgrams n text exclusive).Len ≤ text.length + 1 - n := by
    rw [Ngrams.Len_eq_card, keySet_getNgrams]
    refine le_trans (List.toFinset_card_le _) ?_
    simp [ngramKeys]
  refine ⟨?_, ?_, hlen, ?_⟩
  · intro k
    rw [← Ngrams.mem_keySet, keySet_getNgrams, List.mem_toFinset]
    unfold ngramKeys Join
    simp only [List.mem_map, List.mem_range]
    constructor
    · rintro ⟨i, hi, rfl⟩
      exact ⟨i, by omega, rfl⟩
    · rintro ⟨i, hi, rfl⟩
      exact ⟨i, by omega, rfl⟩
  · intro h
    have : text.length + 1 - n = 0 := by omega
    omega
  · intro h
    omega

/-- C16 at `text = ["a", "b", "a", "b"]`, bigrams. -/
theorem getNgrams_keys_witness :
    (1 ≤ 2) ∧
      (∀ k : String, k ∈ (getNgrams 2 ["a", "b", "a", "b"] false).ngrams ↔
        ∃ i : Nat, i + 2 ≤ ["a", "b", "a", "b"].length ∧
          k = " ".intercalate ((["a", "b", "a", "b"].drop i).take 2)) ∧
      (["a", "b", "a", "b"].length < 2 → (getNgrams 2 ["a", "b", "a", "b"] false).Len = 0) ∧
      (getNgrams 2 ["a", "b", "a", "b"] false).Len ≤ ["a", "b", "a", "b"].length + 1 - 2 ∧
      (2 ≤ ["a", "b", "a", "b"].length →
        ((getNgrams 2 ["a", "b", "a", "b"] false).Len : Int) ≤
          (["a", "b", "a", "b"].length : Int) - ((2 : Nat) : Int) + 1) :=
  ⟨by decide, getNgrams_keys 2 ["a", "b", "a", "b"] false (by decide)⟩

theorem recon_sublist_left (x y : List String) : _recon x y x.length y.length <+ x := by
  have h := (reconAux_spec x y (x.length + y.length) x.length y.length (le_refl _)
    (le_refl _) (le_refl _)).1
  simpa [_recon] using h

theorem recon_sublist_right (x y : List String) : _recon x y x.length y.length <+ y := by
  have h := (reconAux_spec x y (x.length + y.length) x.length y.length (le_refl _)
    (le_refl _) (le_refl _)).2.1
  simpa [_recon] using h

theorem unionLcsSet_subset (H R : List String) (e : Bool) :
    unionLcsSet H R e ⊆ tokenSet R ∩ tokenSet H := by
  intro k hk
  unfold unionLcsSet coveredBy at hk
  simp only [Finset.mem_biUnion, List.mem_toFinset, keySet_reconLcs] at hk
  obtain ⟨r, hr, h, hh, hk⟩ := hk
  have h1 : k ∈ splitIntoWords [r] := (recon_sublist_left _ _).subset hk
  have h2 : k ∈ splitIntoWords [h] := (recon_sublist_right _ _).subset hk
  rw [mem_splitIntoWords] at h1 h2
  obtain ⟨s, hs, hks⟩ := h1
  obtain ⟨t, ht, hkt⟩ := h2
  rw [List.mem_singleton] at hs ht
  subst hs ht
  rw [Finset.mem_inter, mem_tokenSet, mem_tokenSet]
  exact ⟨⟨s, hr, hks⟩, ⟨t, hh, hkt⟩⟩

theorem summaryStats_p (n m : Nat) (llcs : Int) :
    summaryStats n m llcs false "p" = some ((llcs : ℚ) / (n : ℚ)) := by
  simp [summaryStats, StatMap.set_apply]

theorem summaryStats_r (n m : Nat) (llcs : Int) :
    summaryStats n m llcs false "r" = some ((llcs : ℚ) / (m : ℚ)) := by
  simp [summaryStats, StatMap.set_apply]

/-- C19. For non-empty sentence lists the overlap count `llcs` of
`rougeLSummaryLevel` satisfies `0 ≤ llcs ≤ min(m, n)` with `m ≥ 1` distinct
reference tokens and `n ≥ 1` distinct hypothesis tokens, because every key of
the final union occurs in the reference and in the hypothesis; the divisions by
`m` and `n` are by non-zero numbers and precision and recall lie in `[0, 1]`. -/
theorem rougeL_overlap_bounded (H R : List String) (e : Bool) (hH : H ≠ []) (hR : R ≠ []) :
    ∃ (llcs : Int) (U : Ngrams) (p r : ℚ),
      unionLcsSum H R e = Except.ok (llcs, U) ∧
      (∀ k : String, k ∈ U.ngrams → k ∈ splitIntoWords R ∧ k ∈ splitIntoWords H) ∧
      1 ≤ (tokenSet R).card ∧ 1 ≤ (tokenSet H).card ∧
      0 ≤ llcs ∧ llcs ≤ ((min (tokenSet R).card (tokenSet H).card : Nat) : Int) ∧
      stat (rougeLSummaryLevel H R false e) "p" = some p ∧
      stat (rougeLSummaryLevel H R false e) "r" = some r ∧
      p = (llcs : ℚ) / ((tokenSet H).card : ℚ) ∧ r = (llcs : ℚ) / ((tokenSet R).card : ℚ) ∧
      0 ≤ p ∧ p ≤ 1 ∧ 0 ≤ r ∧ r ≤ 1 := by
  obtain ⟨U, hU, hkeys⟩ := unionLcsSum_spec H R e hH
  have hn := tokenSet_card_pos H hH
  have hm := tokenSet_card_pos R hR
  have hsub := unionLcsSet_subset H R e
  have hleR : (unionLcsSet H R e).card ≤ (tokenSet R).card :=
    Finset.card_le_card (hsub.trans Finset.inter_subset_left)
  have hleH : (unionLcsSet H R e).card ≤ (tokenSet H).card :=
    Finset.card_le_card (hsub.trans Finset.inter_subset_right)
  have hn' : (0 : ℚ) < ((tokenSet H).card : ℚ) := by exact_mod_cast hn
  have hm' : (0 : ℚ) < ((tokenSet R).card : ℚ) := by exact_mod_cast hm
  have hleR' : (((unionLcsSet H R e).card : Int) : ℚ) ≤ ((tokenSet R).card : ℚ) := by
    exact_mod_cast hleR
  have hleH' : (((unionLcsSet H R e).card : Int) : ℚ) ≤ ((tokenSet H).card : ℚ) := by
    exact_mod_cast hleH
  have h0 : (0 : ℚ) ≤ (((unionLcsSet H R e).card : Int) : ℚ) := by
    exact_mod_cast Nat.zero_le _
  refine ⟨_, U, _, _, hU, ?_, hm, hn, Int.natCast_nonneg _, ?_, ?_, ?_, rfl, rfl,
    div_nonneg h0 hn'.le, (div_le_one hn').mpr hleH', div_nonneg h0 hm'.le,
    (div_le_one hm').mpr hleR'⟩
  · intro k hk
    have hk' : k ∈ unionLcsSet H R e := by
      rw [← hkeys, Ngrams.mem_keySet]
      exact hk
    have := hsub hk'
    simpa [tokenSet] using this
  · exact_mod_cast le_min hleR hleH
  · rw [rougeLSummaryLevel_ok H R false e hH hR]
    exact summaryStats_p (tokenSet H).card (tokenSet R).card _
  · rw [rougeLSummaryLevel_ok H R false e hH hR]
    exact summaryStats_r (tokenSet H).card (tokenSet R).card _

/-- C19 at hypothesis `["a b c", "d e"]`, reference `["a b d", "e e"]`. -/
theorem rougeL_overlap_bounded_witness :
    (["a b c", "d e"] ≠ ([] : List String) ∧ ["a b d", "e e"] ≠ ([] : List String)) ∧
      ∃ (llcs : Int) (U : Ngrams) (p r : ℚ),
        unionLcsSum ["a b c", "d e"] ["a b d", "e e"] true = Except.ok (llcs, U) ∧
        (∀ k : String, k ∈ U.ngrams →
          k ∈ splitIntoWords ["a b d", "e e"] ∧ k ∈ splitIntoWords ["a b c", "d e"]) ∧
        1 ≤ (tokenSet ["a b d", "e e"]).card ∧ 1 ≤ (tokenSet ["a b c", "d e"]).card ∧
        0 ≤ llcs ∧
        llcs ≤ ((min (tokenSet ["a b d", "e e"]).card (tokenSet ["a b c", "d e"]).card : Nat) :
          Int) ∧
        stat (rougeLSummaryLevel ["a b c", "d e"] ["a b d", "e e"] false true) "p" = some p ∧
        stat (rougeLSummaryLevel ["a b c", "d e"] ["a b d", "e e"] false true) "r" = some r ∧
        p = (llcs : ℚ) / ((tokenSet ["a b c", "d e"]).card : ℚ) ∧
        r = (llcs : ℚ) / ((tokenSet ["a b d", "e e"]).card : ℚ) ∧
        0 ≤ p ∧ p ≤ 1 ∧ 0 ≤ r ∧ r ≤ 1 :=
  ⟨⟨by decide, by decide⟩,
    rougeL_overlap_bounded ["a b c", "d e"] ["a b d", "e e"] true (by decide) (by decide)⟩

/-! ## The LCS engine on empty sequences -/

theorem lenLcs_le_min (x y : List String) : lenLcs x y ≤ min x.length y.length := by
  obtain ⟨⟨s, hs1, hs2, hs3⟩, _⟩ := lenLcs_isLcsLength x y
  rw [← hs3]
  exact le_min hs1.length_le hs2.length_le

/-- C11, as stated, fails: `lenLcs` and `reconLcs` have no guard.  With an empty
`x` (or an empty `y`) `lenLcs` returns `0`, the table read `[len(x)][len(y)]` is
in range, and `reconLcs` returns a multiset without keys. -/
theorem lcs_engine_accepts_empty :
    lenLcs [] ["a", "b"] = 0 ∧ lenLcs ["a", "b"] [] = 0 ∧
      lcs [] ["a", "b"] = [[0, 0, 0]] ∧ lcs ["a", "b"] [] = [[0], [0], [0]] ∧
      _recon [] ["a", "b"] 0 2 = [] ∧ _recon ["a", "b"] [] 2 0 = [] ∧
      (reconLcs [] ["a", "b"] true).Len = 0 ∧ (reconLcs ["a", "b"] [] false).Len = 0 := by
  decide

/-- C11, amended. The functions `lenLcs` and `reconLcs` do not fail on empty
sequences: whenever `x` or `y` is empty, `lenLcs(x, y)` is `0` (read from a table
of `len(x) + 1` rows and `len(y) + 1` columns) and `reconLcs(x, y, exclusive)` is
the empty multiset.  The guard sits in the caller: `unionLcs` fails on an empty
list of hypothesis sentences. -/
theorem lcs_engine_total_on_empty (x y : List String) (exclusive : Bool)
    (h : x = [] ∨ y = []) :
    lenLcs x y = 0 ∧ Dims (lcs x y) x.length y.length ∧
      _recon x y x.length y.length = [] ∧
      reconLcs x y exclusive = NewNgrams exclusive ∧ (reconLcs x y exclusive).Len = 0 ∧
      ∀ (r : String) (prev : Option Ngrams),
        unionLcs [] r prev exclusive =
          Except.error "Collections must contain at least 1 sentence." := by
  have hlen : lenLcs x y = 0 := by
    have hb := (lenLcs_le_min x y)
    rcases h with h | h <;> subst h <;> simpa using hb
  have hrec : _recon x y x.length y.length = [] := by
    apply List.eq_nil_of_length_eq_zero
    rw [recon_length, hlen]
  have hNg : reconLcs x y exclusive = NewNgrams exclusive := by
    unfold reconLcs
    simp only [hrec, List.foldl_nil]
  refine ⟨hlen, (lcs_filled x y).1, hrec, hNg, ?_, ?_⟩
  · rw [hNg]
    rfl
  · intro r prev
    cases prev <;> rfl

/-! ## Canonical n-gram keys -/

theorem intercalate_go_data (s : String) (l : List String) :
    ∀ acc : String, (String.intercalate.go acc s l).data =
      acc.data ++ (l.map fun a => s.data ++ a.data).flatten := by
  induction l with
  | nil => intro acc; simp [String.intercalate.go]
  | cons a l ih =>
    intro acc
    rw [String.intercalate.go, ih]
    simp [String.data_append, List.append_assoc]

theorem joinChars_eq (l : List String) :
    (l.map fun a => " ".data ++ a.data).flatten = joinChars l := by
  induction l with
  | nil => rfl
  | cons a l ih =>
    rw [List.map_cons, List.flatten_cons, ih]
    rfl

theorem Join_cons_data (a : String) (l : List String) :
    (Join (a :: l) " ").data = a.data ++ joinChars l := by
  unfold Join
  rw [String.intercalate, intercalate_go_data, joinChars_eq]

theorem splitAux_token (cs rest : List Char) (h : ∀ c ∈ cs, c ≠ ' ') :
    ∀ cur : List Char, splitAux (cs ++ rest) cur = splitAux rest (cs.reverse ++ cur) := by
  induction cs with
  | nil => intro cur; rfl
  | cons c cs ih =>
    intro cur
    have hc : c ≠ ' ' := h c (List.mem_cons_self _ _)
    rw [List.cons_append, splitAux, if_neg hc, ih (fun d hd => h d (List.mem_cons_of_mem _ hd))]
    simp

theorem splitAux_joined (l : List String) (h : ∀ t ∈ l, ∀ c ∈ t.data, c ≠ ' ') :
    ∀ cur : List Char, splitAux (joinChars l) cur = String.mk cur.reverse :: l := by
  induction l with
  | nil => intro cur; rfl
  | cons b l ih =>
    intro cur
    have hb := h b (List.mem_cons_self _ _)
    have hl : ∀ t ∈ l, ∀ c ∈ t.data, c ≠ ' ' := fun t ht => h t (List.mem_cons_of_mem _ ht)
    rw [joinChars, splitAux, if_pos rfl, splitAux_token b.data _ hb, ih hl]
    simp

theorem Split_Join (l : List String) (hne : l ≠ []) (h : ∀ t ∈ l, ∀ c ∈ t.data, c ≠ ' ') :
    Split (Join l " ") = l := by
  obtain ⟨a, l', rfl⟩ := List.exists_cons_of_ne_nil hne
  have ha := h a (List.mem_cons_self _ _)
  have hl : ∀ t ∈ l', ∀ c ∈ t.data, c ≠ ' ' := fun t ht => h t (List.mem_cons_of_mem _ ht)
  unfold Split
  rw [Join_cons_data, splitAux_token a.data _ ha, splitAux_joined l' hl]
  simp

theorem splitAux_no_space (cs : List Char) :
    ∀ cur : List Char, (∀ c ∈ cur, c ≠ ' ') →
      ∀ t ∈ splitAux cs cur, ∀ c ∈ t.data, c ≠ ' ' := by
  induction cs with
  | nil =>
    intro cur hcur t ht c hc
    rw [splitAux, List.mem_singleton] at ht
    subst ht
    exact hcur c (by simpa using hc)
  | cons d cs ih =>
    intro cur hcur t ht c hc
    rw [splitAux] at ht
    split_ifs at ht with hd
    · rcases List.mem_cons.mp ht with ht | ht
      · subst ht
        exact hcur c (by simpa using hc)
      · exact ih [] (fun _ h => absurd h (List.not_mem_nil _)) t ht c hc
    · refine ih (d :: cur) ?_ t ht c hc
      intro c' hc'
      rcases List.mem_cons.mp hc' with h | h
      · rw [h]; exact hd
      · exact hcur c' h

theorem splitIntoWords_no_space (S : List String) (t : String) (ht : t ∈ splitIntoWords S) :
    ∀ c ∈ t.data, c ≠ ' ' := by
  obtain ⟨s, _, hs⟩ := (mem_splitIntoWords t S).mp ht
  exact splitAux_no_space s.data [] (fun _ h => absurd h (List.not_mem_nil _)) t hs

/-- C17. For `n ≥ 1` and two sequences `a`, `b` of exactly `n` tokens taken from
outputs of `splitIntoWords`, no token contains a space, and the space-joined keys
are equal exactly when `a = b` position by position; a reordering of `a` that
differs from `a` gets a different key. -/
theorem ngram_key_canonical (n : Nat) (S T a b : List String) (hn : 1 ≤ n)
    (ha : a.length = n) (hb : b.length = n) (hS : ∀ t ∈ a, t ∈ splitIntoWords S)
    (hT : ∀ t ∈ b, t ∈ splitIntoWords T) :
    (∀ t ∈ a ++ b, ∀ c ∈ t.data, c ≠ ' ') ∧
      (Join a " " = Join b " " ↔ a = b) ∧
      (a ~ b → a ≠ b → Join a " " ≠ Join b " ") := by
  have hfa : ∀ t ∈ a, ∀ c ∈ t.data, c ≠ ' ' :=
    fun t ht => splitIntoWords_no_space S t (hS t ht)
  have hfb : ∀ t ∈ b, ∀ c ∈ t.data, c ≠ ' ' :=
    fun t ht => splitIntoWords_no_space T t (hT t ht)
  have hane : a ≠ [] := by
    intro h
    rw [h] at ha
    simp at ha
    omega
  have hbne : b ≠ [] := by
    intro h
    rw [h] at hb
    simp at hb
    omega
  have hiff : Join a " " = Join b " " ↔ a = b := by
    constructor
    · intro h
      rw [← Split_Join a hane hfa, ← Split_Join b hbne hfb, h]
    · intro h
      rw [h]
  refine ⟨?_, hiff, ?_⟩
  · intro t ht
    rcases List.mem_append.mp ht with h | h
    · exact hfa t h
    · exact hfb t h
  · intro _ hne h
    exact hne (hiff.mp h)

/-- C17 at the bigrams `a b` and `b a` of the sentence `"a b a"`. -/
theorem ngram_key_canonical_witness :
    (1 ≤ 2 ∧ ["a", "b"].length = 2 ∧ ["b", "a"].length = 2 ∧
        (∀ t ∈ ["a", "b"], t ∈ splitIntoWords ["a b a"]) ∧
        (∀ t ∈ ["b", "a"], t ∈ splitIntoWords ["a b a"])) ∧
      (∀ t ∈ ["a", "b"] ++ ["b", "a"], ∀ c ∈ t.data, c ≠ ' ') ∧
      (Join ["a", "b"] " " = Join ["b", "a"] " " ↔ ["a", "b"] = ["b", "a"]) ∧
      (["a", "b"] ~ ["b", "a"] → ["a", "b"] ≠ ["b", "a"] →
        Join ["a", "b"] " " ≠ Join ["b", "a"] " ") :=
  ⟨⟨by decide, by decide, by decide, by decide, by decide⟩,
    ngram_key_canonical 2 ["a b a"] ["a b a"] ["a", "b"] ["b", "a"] (by decide) (by decide)
      (by decide) (by decide) (by decide)⟩

/-! ## Configuration and orchestration -/

theorem ScoreMap.ext_entries {a b : ScoreMap} (h : ∀ k, a.entries k = b.entries k) : a = b := by
  cases a
  cases b
  congr
  funext k
  exact h k

theorem availableMetrics_isSome (m : String) :
    (AvailableMetrics m).isSome ↔ m = "rouge-1" ∨ m = "rouge-2" ∨ m = "rouge-l" := by
  unfold AvailableMetrics
  split_ifs <;> simp_all

theorem metric_call_ok (m : String) (hyp ref : List String) (e : Bool)
    (hm : (AvailableMetrics m).isSome) (hh : hyp ≠ []) (hr : ref ≠ []) :
    ∃ (fn : List String → List String → Bool → Except String StatMap) (a b c : Int),
      AvailableMetrics m = some fn ∧ fn hyp ref e = Except.ok (calculateRougeN a b c) ∧
      metricValue m hyp ref e = calculateRougeN a b c := by
  have key : ∀ fn : List String → List String → Bool → Except String StatMap,
      AvailableMetrics m = some fn → ∀ a b c : Int,
      fn hyp ref e = Except.ok (calculateRougeN a b c) →
      metricValue m hyp ref e = calculateRougeN a b c := by
    intro fn h1 a b c h2
    unfold metricValue
    rw [h1]
    simp only [h2]
  rcases (availableMetrics_isSome m).mp hm with h | h | h
  · subst h
    have h2 := rougeN_ok hyp ref 1 false e hh hr
    simp only [Bool.false_eq_true, if_false] at h2
    exact ⟨_, _, _, _, rfl, h2, key _ rfl _ _ _ h2⟩
  · subst h
    have h2 := rougeN_ok hyp ref 2 false e hh hr
    simp only [Bool.false_eq_true, if_false] at h2
    exact ⟨_, _, _, _, rfl, h2, key _ rfl _ _ _ h2⟩
  · subst h
    have h2 := rougeLSummaryLevel_ok hyp ref false e hh hr
    rw [summaryStats_scored _ _ _ (Nat.pos_iff_ne_zero.mp (tokenSet_card_pos hyp hh))
      (Nat.pos_iff_ne_zero.mp (tokenSet_card_pos ref hr))] at h2
    exact ⟨_, _, _, _, rfl, h2, key _ rfl _ _ _ h2⟩

theorem statsFold_entries (m : String) (sc : StatMap) (stats : List String) :
    ∀ (sen : ScoreMap) (st : StatMap), sen.entries m = some st →
      ∀ k : String,
        (stats.foldl (fun senScore s => senScore.setStat m s (sc.get s)) sen).entries k =
          if k = m then some (fun s => if s ∈ stats then some (sc.get s) else st s)
          else sen.entries k := by
  induction stats with
  | nil =>
    intro sen st hst k
    simp only [List.foldl_nil, List.not_mem_nil, if_false]
    split_ifs with hk
    · rw [hk, hst]
    · rfl
  | cons s stats ih =>
    intro sen st hst k
    rw [List.foldl_cons]
    have hnew : (sen.setStat m s (sc.get s)).entries m = some (st.set s (sc.get s)) := by
      simp [ScoreMap.setStat, ScoreMap.set, hst]
    rw [ih _ _ hnew k]
    split_ifs with hk
    · congr 1
      funext s'
      by_cases h1 : s' ∈ stats
      · have : s' ∈ s :: stats := List.mem_cons_of_mem _ h1
        simp [h1, this]
      · by_cases h2 : s' = s
        · subst h2
          simp [h1, StatMap.set_apply]
        · have : s' ∉ s :: stats := by
            intro h
            rcases List.mem_cons.mp h with h | h
            · exact h2 h
            · exact h1 h
          simp [h1, this, h2, StatMap.set_apply]
    · simp [ScoreMap.setStat, ScoreMap.set, hk]

theorem metricLoop_ok (r : Rouge) (hyp ref : List String) (hh : hyp ≠ []) (hr : ref ≠ []) :
    ∀ (ms : List String) (sen : ScoreMap), (∀ m ∈ ms, (AvailableMetrics m).isSome) →
      ∃ sm : ScoreMap, metricLoop r hyp ref ms sen = Result.ok sm ∧
        ∀ k : String, sm.entries k =
          if k ∈ ms then some (statEntry r hyp ref k) else sen.entries k := by
  intro ms
  induction ms with
  | nil =>
    intro sen _
    exact ⟨sen, rfl, fun k => by simp⟩
  | cons m ms ih =>
    intro sen hval
    obtain ⟨fn, a, b, c, hfn, hcall, hmv⟩ :=
      metric_call_ok m hyp ref r.exclusive (hval m (List.mem_cons_self _ _)) hh hr
    obtain ⟨sm, hsm, hent⟩ := ih
      (r.stats.foldl (fun senScore s => senScore.setStat m s ((calculateRougeN a b c).get s))
        (sen.set m StatMap.empty))
      (fun m' hm' => hval m' (List.mem_cons_of_mem _ hm'))
    refine ⟨sm, ?_, ?_⟩
    · rw [metricLoop, hfn]
      simp only [hcall]
      exact hsm
    · intro k
      rw [hent k]
      have hset : (sen.set m StatMap.empty).entries m = some StatMap.empty := by
        simp [ScoreMap.set]
      rw [statsFold_entries m _ r.stats _ _ hset k]
      by_cases h1 : k ∈ ms
      · have : k ∈ m :: ms := List.mem_cons_of_mem _ h1
        simp [h1, this]
      · by_cases h2 : k = m
        · subst h2
          simp only [h1, if_false, if_true, List.mem_cons_self]
          congr 1
          funext s
          simp [statEntry, hmv, StatMap.empty_apply]
        · have : k ∉ m :: ms := by
            intro h
            rcases List.mem_cons.mp h with h | h
            · exact h2 h
            · exact h1 h
          simp [h1, this, h2, ScoreMap.set]

theorem firstUnknownMetric_none (ms : List String) (h : firstUnknownMetric ms = none) :
    ∀ m ∈ ms, (AvailableMetrics m).isSome := by
  induction ms with
  | nil => intro m hm; exact absurd hm (List.not_mem_nil _)
  | cons a ms ih =>
    intro m hm
    rw [firstUnknownMetric] at h
    split_ifs at h with ha
    rcases List.mem_cons.mp hm with hm | hm
    · subst hm
      cases hopt : AvailableMetrics m with
      | none => simp [hopt] at ha
      | some fn => rfl
    · exact ih h m hm

theorem defaultMetrics_available : ∀ m ∈ DefaultMetrics, (AvailableMetrics m).isSome := by
  intro m hm
  rw [availableMetrics_isSome]
  simpa [DefaultMetrics] using hm

theorem NewRouge_ok (metrics stats : Option (List String)) (rl raw e : Bool) (r : Rouge)
    (h : NewRouge metrics stats rl raw e = Result.ok r) :
    r.returnLengths = rl ∧ r.rawResults = raw ∧ r.exclusive = e ∧
      r.metrics = metrics.getD DefaultMetrics ∧
      (∀ m ∈ r.metrics, (AvailableMetrics m).isSome) ∧
      r.stats = (if raw then ["hyp", "ref", "overlap"] else stats.getD DefaultStats) := by
  have hstats : ∀ (r0 : Rouge),
      (if raw = true then
          Result.ok { r0 with stats := ["hyp", "ref", "overlap"] }
        else
          match stats with
          | some ss =>
            match firstUnknownStat ss with
            | some s => Result.error ("Unknown stat \x27" ++ s ++ "\x27")
            | none => Result.ok { r0 with stats := ss }
          | none => Result.ok { r0 with stats := DefaultStats }) = Result.ok r →
      r.returnLengths = r0.returnLengths ∧ r.rawResults = r0.rawResults ∧
        r.exclusive = r0.exclusive ∧ r.metrics = r0.metrics ∧
        r.stats = (if raw then ["hyp", "ref", "overlap"] else stats.getD DefaultStats) := by
    intro r0 h0
    cases raw with
    | true =>
      simp only [if_true] at h0
      cases h0
      simp
    | false =>
      simp only [Bool.false_eq_true, if_false] at h0
      cases stats with
      | none =>
        simp only at h0
        cases h0
        simp
      | some ss =>
        simp only at h0
        cases hs : firstUnknownStat ss with
        | some s => rw [hs] at h0; cases h0
        | none =>
          rw [hs] at h0
          simp only at h0
          cases h0
          simp
  unfold NewRouge at h
  cases metrics with
  | none =>
    simp only at h
    obtain ⟨h1, h2, h3, h4, h5⟩ := hstats ⟨rl, raw, e, DefaultMetrics, []⟩ h
    refine ⟨h1, h2, h3, by simpa using h4, ?_, h5⟩
    rw [h4]
    exact defaultMetrics_available
  | some ms =>
    simp only at h
    cases hm : firstUnknownMetric ms with
    | some m => rw [hm] at h; cases h
    | none =>
      rw [hm] at h
      simp only at h
      obtain ⟨h1, h2, h3, h4, h5⟩ := hstats ⟨rl, raw, e, ms, []⟩ h
      refine ⟨h1, h2, h3, by simpa using h4, ?_, h5⟩
      rw [h4]
      exact firstUnknownMetric_none ms hm

theorem getScoresLoop_ok (r : Rouge) (hyps refs : List String)
    (hlen : hyps.length = refs.length) (hval : ∀ m ∈ r.metrics, (AvailableMetrics m).isSome)
    (hh : ∀ t ∈ hyps, splitSentences t ≠ []) (hf : ∀ t ∈ refs, splitSentences t ≠ []) :
    ∀ (idxs : List Nat) (acc : List ScoreMap), (∀ i ∈ idxs, i < hyps.length) →
      getScoresLoop r hyps refs idxs acc =
        Result.ok (acc ++ idxs.map (pairEntry r hyps refs)) := by
  intro idxs
  induction idxs with
  | nil => intro acc _; simp [getScoresLoop]
  | cons i idxs ih =>
    intro acc hidx
    have hi : i < hyps.length := hidx i (List.mem_cons_self _ _)
    have hi' : i < refs.length := hlen ▸ hi
    have hget : refs[i]? = some (refs.getD i "") := by
      rw [List.getD_eq_getElem _ _ hi', List.getElem?_eq_getElem hi']
    have hhyp : splitSentences (hyps.getD i "") ≠ [] := by
      apply hh
      rw [List.getD_eq_getElem _ _ hi]
      exact List.getElem_mem _
    have href : splitSentences (refs.getD i "") ≠ [] := by
      apply hf
      rw [List.getD_eq_getElem _ _ hi']
      exact List.getElem_mem _
    obtain ⟨sm, hsm, hent⟩ := metricLoop_ok r _ _ hhyp href r.metrics ScoreMap.empty hval
    have hentry : (if r.returnLengths = true then
        sm.set "lengths" (lengthsOf (splitSentences (hyps.getD i ""))
          (splitSentences (refs.getD i "")))
        else sm) = pairEntry r hyps refs i := by
      apply ScoreMap.ext_entries
      intro k
      unfold pairEntry
      by_cases hrl : r.returnLengths = true
      · rw [if_pos hrl]
        simp only [ScoreMap.set, hrl, true_and]
        by_cases hk : k = "lengths"
        · simp [hk]
        · simp only [if_neg hk]
          rw [hent k]
          rfl
      · rw [if_neg hrl]
        have hno : ¬ (r.returnLengths = true ∧ k = "lengths") := fun h => hrl h.1
        simp only [if_neg hno]
        rw [hent k]
        rfl
    rw [getScoresLoop, hget]
    simp only [hsm]
    rw [hentry, ih _ (fun j hj => hidx j (List.mem_cons_of_mem _ hj))]
    simp

theorem GetScores_ok (r : Rouge) (hyps refs : List String)
    (hlen : hyps.length = refs.length) (hval : ∀ m ∈ r.metrics, (AvailableMetrics m).isSome)
    (hh : ∀ t ∈ hyps, splitSentences t ≠ []) (hf : ∀ t ∈ refs, splitSentences t ≠ []) :
    GetScores r hyps refs false false =
      Result.ok (Scores.list ((List.range hyps.length).map (pairEntry r hyps refs))) := by
  have h := getScoresLoop_ok r hyps refs hlen hval hh hf (List.range hyps.length) []
    (fun i hi => List.mem_range.mp hi)
  have hne : ¬ (hyps.length ≠ refs.length) := fun hc => hc hlen
  unfold GetScores getScores
  simp only [Bool.false_eq_true, if_false, if_neg hne, Bool.not_false, if_true, h,
    List.nil_append]

theorem pairEntry_metric (r : Rouge) (hyps refs : List String) (i : Nat) (m : String)
    (hm : m ∈ r.metrics) (hval : ∀ m ∈ r.metrics, (AvailableMetrics m).isSome) :
    (pairEntry r hyps refs i).entries m =
      some (statEntry r (splitSentences (hyps.getD i "")) (splitSentences (refs.getD i "")) m) := by
  have hne : m ≠ "lengths" := by
    intro h
    have h' := (availableMetrics_isSome m).mp (hval m hm)
    rw [h] at h'
    revert h'
    decide
  have hno : ¬ (r.returnLengths = true ∧ m = "lengths") := fun h => hne h.2
  unfold pairEntry
  simp only [if_neg hno, if_pos hm]

theorem pairEntry_keys (r : Rouge) (hyps refs : List String) (i : Nat) (k : String) :
    ((pairEntry r hyps refs i).entries k).isSome ↔
      (k ∈ r.metrics ∨ (r.returnLengths = true ∧ k = "lengths")) := by
  unfold pairEntry
  by_cases h1 : r.returnLengths = true ∧ k = "lengths"
  · simp [h1]
  · by_cases h2 : k ∈ r.metrics
    · simp only [if_neg h1, if_pos h2]
      simp [h2]
    · simp only [if_neg h1, if_neg h2]
      simp [h1, h2]

/-- C18. For a `Rouge` built without error by `NewRouge`, equal-length `hyps` and
`refs`, and every text with at least one non-blank sentence,
`GetScores(hyps, refs, false, false)` returns no error and a list with one entry
per pair; the entry at index `i` has exactly the configured metrics as keys (plus
`"lengths"` when `returnLengths` is set), and under each metric exactly the
configured stats, each holding the value that metric returns for the pair at
index `i`. -/
theorem GetScores_shape (metrics stats : Option (List String))
    (returnLengths rawResults exclusive : Bool) (r : Rouge) (hyps refs : List String)
    (hr : NewRouge metrics stats returnLengths rawResults exclusive = Result.ok r)
    (hlen : hyps.length = refs.length)
    (hh : ∀ t ∈ hyps, splitSentences t ≠ []) (hf : ∀ t ∈ refs, splitSentences t ≠ []) :
    r.metrics = metrics.getD DefaultMetrics ∧
      r.stats = (if rawResults then ["hyp", "ref", "overlap"] else stats.getD DefaultStats) ∧
      r.returnLengths = returnLengths ∧
      ∃ l : List ScoreMap,
        GetScores r hyps refs false false = Result.ok (Scores.list l) ∧
        l.length = hyps.length ∧
        ∀ i : Nat, i < hyps.length → ∃ sm : ScoreMap, l[i]? = some sm ∧
          (∀ k : String, (sm.entries k).isSome ↔
            (k ∈ r.metrics ∨ (r.returnLengths = true ∧ k = "lengths"))) ∧
          ∀ m ∈ r.metrics, ∃ st : StatMap, sm.entries m = some st ∧
            (∀ s : String, (st s).isSome ↔ s ∈ r.stats) ∧
            ∀ s ∈ r.stats, st s = some ((metricValue m (splitSentences (hyps.getD i ""))
              (splitSentences (refs.getD i "")) r.exclusive).get s) := by
  obtain ⟨h1, _, _, h4, hval, h6⟩ := NewRouge_ok metrics stats returnLengths rawResults exclusive r hr
  refine ⟨h4, h6, h1, _, GetScores_ok r hyps refs hlen hval hh hf, by simp, ?_⟩
  intro i hi
  refine ⟨pairEntry r hyps refs i, ?_, pairEntry_keys r hyps refs i, ?_⟩
  · rw [List.getElem?_map, List.getElem?_range hi]
    rfl
  · intro m hm
    refine ⟨_, pairEntry_metric r hyps refs i m hm hval, ?_, ?_⟩
    · intro s
      unfold statEntry
      by_cases hs : s ∈ r.stats <;> simp [hs]
    · intro s hs
      unfold statEntry
      simp only [if_pos hs]

set_option maxRecDepth 100000 in
/-- C18 at the pair of texts of `Test_score` with the default configuration
(the test passes the reference text first). -/
theorem GetScores_shape_witness :
    (NewRouge none none false false true =
        Result.ok ⟨false, false, true, DefaultMetrics, DefaultStats⟩ ∧
      testRefs.length = testHyps.length ∧
      (∀ t ∈ testRefs, splitSentences t ≠ []) ∧ (∀ t ∈ testHyps, splitSentences t ≠ [])) ∧
    ∃ l : List ScoreMap,
      GetScores ⟨false, false, true, DefaultMetrics, DefaultStats⟩ testRefs testHyps false false =
        Result.ok (Scores.list l) ∧
      l.length = testRefs.length ∧
      ∀ i : Nat, i < testRefs.length → ∃ sm : ScoreMap, l[i]? = some sm ∧
        (∀ k : String, (sm.entries k).isSome ↔
          (k ∈ DefaultMetrics ∨ (false = true ∧ k = "lengths"))) ∧
        ∀ m ∈ DefaultMetrics, ∃ st : StatMap, sm.entries m = some st ∧
          (∀ s : String, (st s).isSome ↔ s ∈ DefaultStats) ∧
          ∀ s ∈ DefaultStats, st s = some ((metricValue m (splitSentences (testRefs.getD i ""))
            (splitSentences (testHyps.getD i "")) true).get s) :=
  ⟨⟨rfl, rfl, by decide, by decide⟩,
    (GetScores_shape none none false false true ⟨false, false, true, DefaultMetrics, DefaultStats⟩
      testRefs testHyps rfl rfl (by decide) (by decide)).2.2.2⟩

/-! ## Raw mode and the length check of `GetScores` -/

theorem metricValue_raw_key (m : String) (hyp ref : List String) (e : Bool)
    (hm : (AvailableMetrics m).isSome) (hh : hyp ≠ []) (hr : ref ≠ []) (s : String)
    (hs : s ∈ ["hyp", "ref", "overlap"]) :
    (metricValue m hyp ref e).get s = 0 := by
  obtain ⟨fn, a, b, c, _, _, hmv⟩ := metric_call_ok m hyp ref e hm hh hr
  have hnone : calculateRougeN a b c s = none := by
    apply calculateRougeN_other <;>
    · intro h
      rw [h] at hs
      revert hs
      decide
  rw [hmv, StatMap.get, hnone]
  rfl

/-- C12 at the failing input: a `Rouge` built with `rawResults = true` and the
default metrics reports `0` under `hyp`, `ref` and `overlap` for every metric on
the pair `"a b c"` / `"a b d"`, while `rougeN` in raw mode returns `hyp = 3`,
`ref = 3`, `overlap = 2` for the same sentences. -/
theorem GetScores_raw_reports_zero :
    ∃ (r : Rouge) (sm : ScoreMap),
      NewRouge none none false true true = Result.ok r ∧
      r.metrics = ["rouge-1", "rouge-2", "rouge-l"] ∧ r.stats = ["hyp", "ref", "overlap"] ∧
      GetScores r ["a b c"] ["a b d"] false false = Result.ok (Scores.list [sm]) ∧
      (∀ m ∈ r.metrics, ∀ s ∈ r.stats, (sm.entries m).bind (fun st => st s) = some 0) ∧
      splitSentences "a b c" = ["a b c"] ∧ splitSentences "a b d" = ["a b d"] ∧
      stat (rougeN ["a b c"] ["a b d"] 1 true true) "hyp" = some 3 ∧
      stat (rougeN ["a b c"] ["a b d"] 1 true true) "ref" = some 3 ∧
      stat (rougeN ["a b c"] ["a b d"] 1 true true) "overlap" = some 2 := by
  have hval : ∀ m ∈ DefaultMetrics, (AvailableMetrics m).isSome := defaultMetrics_available
  have hA : (ngramSet 1 ["a b c"]).card = 3 := by decide
  have hB : (ngramSet 1 ["a b d"]).card = 3 := by decide
  have hAB : (ngramSet 1 ["a b c"] ∩ ngramSet 1 ["a b d"]).card = 2 := by decide
  refine ⟨⟨false, true, true, DefaultMetrics, ["hyp", "ref", "overlap"]⟩,
    pairEntry ⟨false, true, true, DefaultMetrics, ["hyp", "ref", "overlap"]⟩ ["a b c"] ["a b d"] 0,
    rfl, rfl, rfl, ?_, ?_, by decide, by decide, ?_⟩
  · rw [GetScores_ok _ ["a b c"] ["a b d"] rfl hval (by decide) (by decide)]
    rfl
  · intro m hm s hs
    have h0 := metricValue_raw_key m (splitSentences "a b c") (splitSentences "a b d") true
      (hval m hm) (by decide) (by decide) s hs
    rw [pairEntry_metric _ _ _ _ m hm hval]
    have hst : statEntry ⟨false, true, true, DefaultMetrics, ["hyp", "ref", "overlap"]⟩
        (splitSentences "a b c") (splitSentences "a b d") m s = some 0 := by
      unfold statEntry
      rw [if_pos hs]
      exact congrArg some h0
    exact hst
  · rw [rougeN_ok ["a b c"] ["a b d"] 1 true true (by decide) (by decide), hA, hB, hAB]
    simp only [stat, if_true]
    refine ⟨?_, ?_, ?_⟩ <;> simp [StatMap.set_apply, StatMap.empty_apply]

theorem GetScores_mismatch_unfiltered (r : Rouge) (hyps refs : List String) (avg : Bool)
    (h : hyps.length ≠ refs.length) :
    GetScores r hyps refs avg false =
      Result.error "the number of hypotheses and references must be equal" := by
  unfold GetScores
  simp only [Bool.false_eq_true, if_false, if_pos h]

theorem GetScores_filtered (r : Rouge) (hyps refs fh fr : List String) (avg : Bool)
    (h : filterEmptyLoop hyps refs (List.range hyps.length) ([], []) = Result.ok (fh, fr)) :
    GetScores r hyps refs avg true = GetScores r fh fr avg false := by
  unfold GetScores
  simp only [if_true, h, Bool.false_eq_true, if_false]

theorem metricLoop_no_error (r : Rouge) (hyp ref : List String) :
    ∀ (ms : List String) (sen : ScoreMap) (msg : String),
      metricLoop r hyp ref ms sen ≠ Result.error msg := by
  intro ms
  induction ms with
  | nil => intro sen msg h; cases h
  | cons m ms ih =>
    intro sen msg h
    rw [metricLoop] at h
    cases hfn : AvailableMetrics m with
    | none => rw [hfn] at h; cases h
    | some fn =>
      rw [hfn] at h
      simp only at h
      cases hcall : fn hyp ref r.exclusive with
      | error e => rw [hcall] at h; cases h
      | ok sc =>
        rw [hcall] at h
        exact ih _ msg h

theorem avgMetricLoop_no_error (r : Rouge) (hyp ref : List String) :
    ∀ (ms : List String) (sen : ScoreMap) (msg : String),
      avgMetricLoop r hyp ref ms sen ≠ Result.error msg := by
  intro ms
  induction ms with
  | nil => intro sen msg h; cases h
  | cons m ms ih =>
    intro sen msg h
    rw [avgMetricLoop] at h
    cases hfn : AvailableMetrics m with
    | none => rw [hfn] at h; cases h
    | some fn =>
      rw [hfn] at h
      simp only at h
      cases hcall : fn hyp ref r.exclusive with
      | error e => rw [hcall] at h; cases h
      | ok sc =>
        rw [hcall] at h
        exact ih _ msg h

theorem getScoresLoop_no_error (r : Rouge) (hyps refs : List String) :
    ∀ (idxs : List Nat) (acc : List ScoreMap) (msg : String),
      getScoresLoop r hyps refs idxs acc ≠ Result.error msg := by
  intro idxs
  induction idxs with
  | nil => intro acc msg h; cases h
  | cons i idxs ih =>
    intro acc msg h
    rw [getScoresLoop] at h
    cases hget : refs[i]? with
    | none => rw [hget] at h; cases h
    | some refText =>
      rw [hget] at h
      simp only at h
      cases hm : metricLoop r (splitSentences (hyps.getD i "")) (splitSentences refText)
          r.metrics ScoreMap.empty with
      | error e => exact metricLoop_no_error r _ _ _ _ e hm
      | fault e => rw [hm] at h; cases h
      | ok sm =>
        rw [hm] at h
        exact ih _ msg h

theorem getAvgScoresLoop_no_error (r : Rouge) (hyps refs : List String) :
    ∀ (idxs : List Nat) (state : ScoreMap × Nat) (msg : String),
      getAvgScoresLoop r hyps refs idxs state ≠ Result.error msg := by
  intro idxs
  induction idxs with
  | nil => intro state msg h; cases h
  | cons i idxs ih =>
    intro state msg h
    obtain ⟨scores, count⟩ := state
    rw [getAvgScoresLoop] at h
    cases hget : refs[i]? with
    | none => rw [hget] at h; cases h
    | some refText =>
      rw [hget] at h
      simp only at h
      cases hm : avgMetricLoop r (splitSentences (hyps.getD i "")) (splitSentences refText)
          r.metrics scores with
      | error e => exact avgMetricLoop_no_error r _ _ _ _ e hm
      | fault e => rw [hm] at h; cases h
      | ok sm =>
        rw [hm] at h
        exact ih _ msg h

theorem filterEmptyLoop_lengths (hyps refs : List String) :
    ∀ (idxs : List Nat) (acc res : List String × List String),
      acc.1.length = acc.2.length →
      filterEmptyLoop hyps refs idxs acc = Result.ok res → res.1.length = res.2.length := by
  intro idxs
  induction idxs with
  | nil =>
    intro acc res hacc h
    rw [filterEmptyLoop] at h
    cases h
    exact hacc
  | cons i idxs ih =>
    intro acc res hacc h
    obtain ⟨fh, fr⟩ := acc
    rw [filterEmptyLoop] at h
    split_ifs at h with h1
    · cases hget : refs[i]? with
      | none => rw [hget] at h; cases h
      | some refText =>
        rw [hget] at h
        simp only at h
        split_ifs at h with h2
        · exact ih _ res (by simpa using hacc) h
        · exact ih _ res hacc h
    · exact ih _ res hacc h

theorem filterEmptyLoop_no_error (hyps refs : List String) :
    ∀ (idxs : List Nat) (acc : List String × List String) (msg : String),
      filterEmptyLoop hyps refs idxs acc ≠ Result.error msg := by
  intro idxs
  induction idxs with
  | nil => intro acc msg h; cases h
  | cons i idxs ih =>
    intro acc msg h
    obtain ⟨fh, fr⟩ := acc
    rw [filterEmptyLoop] at h
    split_ifs at h with h1
    · cases hget : refs[i]? with
      | none => rw [hget] at h; cases h
      | some refText =>
        rw [hget] at h
        simp only at h
        split_ifs at h with h2
        · exact ih _ msg h
        · exact ih _ msg h
    · exact ih _ msg h

theorem GetScores_unfiltered_error (r : Rouge) (hyps refs : List String) (avg : Bool)
    (msg : String) (h : GetScores r hyps refs avg false = Result.error msg) :
    hyps.length ≠ refs.length := by
  intro hlen
  have hne : ¬ (hyps.length ≠ refs.length) := fun hc => hc hlen
  unfold GetScores at h
  simp only [Bool.false_eq_true, if_false, if_neg hne] at h
  cases avg with
  | false =>
    simp only [Bool.not_false, if_true] at h
    unfold getScores at h
    cases hs : getScoresLoop r hyps refs (List.range hyps.length) [] with
    | error e => exact getScoresLoop_no_error r hyps refs _ _ e hs
    | fault e => rw [hs] at h; cases h
    | ok l => rw [hs] at h; cases h
  | true =>
    simp only [Bool.not_true, Bool.false_eq_true, if_false] at h
    unfold getAvgScores at h
    simp only at h
    generalize hinit : List.foldl _ ScoreMap.empty r.metrics = init at h
    cases hs : getAvgScoresLoop r hyps refs (List.range hyps.length) (init, 0) with
    | error e => exact getAvgScoresLoop_no_error r hyps refs _ _ e hs
    | fault e => rw [hs] at h; cases h
    | ok st => rw [hs] at h; cases h

theorem GetScores_filtered_no_error (r : Rouge) (hyps refs : List String) (avg : Bool)
    (msg : String) : GetScores r hyps refs avg true ≠ Result.error msg := by
  intro h
  cases hf : filterEmptyLoop hyps refs (List.range hyps.length) ([], []) with
  | error e => exact filterEmptyLoop_no_error hyps refs _ _ e hf
  | fault e =>
    unfold GetScores at h
    simp only [if_true, hf] at h
    cases h
  | ok res =>
    obtain ⟨fh, fr⟩ := res
    rw [GetScores_filtered r hyps refs fh fr avg hf] at h
    exact GetScores_unfiltered_error r fh fr avg msg h
      (filterEmptyLoop_lengths hyps refs _ _ _ rfl hf)

/-- C20 at the failing inputs. With `ignoreEmpty = true`, `hyps = ["a"]` and
`refs = []` the filtering loop reads `refs[0]` and panics instead of returning
the error; with `hyps = ["a"]` and `refs = ["a", "b"]` the filtered lists have
equal length, so scores are returned; and with `ignoreEmpty = true` no input at
all makes `GetScores` return an error.  With `ignoreEmpty = false` the same two
inputs give the error. -/
theorem GetScores_length_check_after_filter (r : Rouge) (avg : Bool) :
    GetScores r ["a"] [] avg true = Result.fault "index out of range" ∧
      (∃ l : List ScoreMap,
        GetScores ⟨false, false, true, DefaultMetrics, DefaultStats⟩ ["a"] ["a", "b"] false true =
          Result.ok (Scores.list l) ∧ l.length = 1) ∧
      (∀ (hyps refs : List String) (msg : String),
        GetScores r hyps refs avg true ≠ Result.error msg) ∧
      GetScores r ["a"] [] avg false =
        Result.error "the number of hypotheses and references must be equal" ∧
      GetScores r ["a"] ["a", "b"] avg false =
        Result.error "the number of hypotheses and references must be equal" := by
  refine ⟨?_, ?_, fun hyps refs msg => GetScores_filtered_no_error r hyps refs avg msg,
    GetScores_mismatch_unfiltered r _ _ avg (by decide),
    GetScores_mismatch_unfiltered r _ _ avg (by decide)⟩
  · cases avg <;> rfl
  · refine ⟨(List.range 1).map
      (pairEntry ⟨false, false, true, DefaultMetrics, DefaultStats⟩ ["a"] ["a"]), ?_, rfl⟩
    rw [GetScores_filtered _ ["a"] ["a", "b"] ["a"] ["a"] false rfl]
    exact GetScores_ok _ ["a"] ["a"] rfl defaultMetrics_available (by decide) (by decide)

/-- C11 at `x = []`, `y = ["a", "b"]`. -/
theorem lcs_engine_total_on_empty_witness :
    (([] : List String) = [] ∨ ["a", "b"] = ([] : List String)) ∧
      lenLcs [] ["a", "b"] = 0 ∧ Dims (lcs [] ["a", "b"]) ([] : List String).length 2 ∧
      _recon [] ["a", "b"] 0 2 = [] ∧
      reconLcs [] ["a", "b"] true = NewNgrams true ∧ (reconLcs [] ["a", "b"] true).Len = 0 ∧
      ∀ (r : String) (prev : Option Ngrams),
        unionLcs [] r prev true =
          Except.error "Collections must contain at least 1 sentence." :=
  ⟨Or.inl rfl, lcs_engine_total_on_empty [] ["a", "b"] true (Or.inl rfl)⟩

end Rouge
